import Mathlib

/-!
Verification development for the talent-store engine of the talent-heron
repository (src-tauri/src): the Lua talent store codec (`lua_talent.rs`),
the identifier scheme and time-window policy (`archon.rs`), the class
catalogue (`wow.rs`) and the reconciliation orchestrator
(`orchestrator.rs`).

Rust `HashMap`s are modelled as association lists without duplicate keys
(`insert` replaces the value of the first matching key, lookup returns the
first match); `Vec` is `List`; `u8`/`i64` are `Nat`/`Int` with explicit
range conditions where the machine type matters.  The external Lua parsing
library (`full_moon`) is modelled from the spec by an executable
recursive-descent parser over the table-literal subset of Lua that this
save format uses.
-/

namespace TH

/-! ### Character and string utilities -/

/-- Decimal digit character for a value below ten. -/
def digitChar (d : Nat) : Char := Char.ofNat (48 + d)

/-- Value of a decimal digit character. -/
def digitVal (c : Char) : Nat := c.toNat - 48

/-- Is this an ASCII decimal digit? -/
def isDigitChar (c : Char) : Bool := 48 ≤ c.toNat && c.toNat ≤ 57

/-- Whitespace characters skipped by the Lua tokenizer model. -/
def isWsChar (c : Char) : Bool := c = ' ' || c = '\n' || c = '\t' || c = '\r'

/-- First character of a Lua name. -/
def isNameStartChar (c : Char) : Bool :=
  (65 ≤ c.toNat && c.toNat ≤ 90) || (97 ≤ c.toNat && c.toNat ≤ 122) || c = '_'

/-- Character that may continue a Lua name. -/
def isNameChar (c : Char) : Bool := isNameStartChar c || isDigitChar c

/-- Numeric value of a list of decimal digit characters (most significant first). -/
def digitsToNat (cs : List Char) : Nat := cs.foldl (fun acc c => acc * 10 + digitVal c) 0

/-- Decimal representation of a natural number, as characters; the fuel
argument bounds the number of digits. -/
def natReprAux : Nat → Nat → List Char
  | 0, _ => []
  | fuel + 1, n =>
      if n < 10 then [digitChar n]
      else natReprAux fuel (n / 10) ++ [digitChar (n % 10)]

/-- Decimal representation of a natural number.  Models Rust `Display` for
unsigned integers. -/
def natReprChars (n : Nat) : List Char := natReprAux (n + 1) n

/-- Decimal representation of a natural number, as a string. -/
def natRepr (n : Nat) : String := String.mk (natReprChars n)

/-- Decimal representation of an integer.  Models Rust `Display` for `i64`. -/
def intRepr (i : Int) : String :=
  if i < 0 then "-" ++ natRepr i.natAbs else natRepr i.toNat

/-- A nonempty all-digit character list, mapped to its value when below
the bound, else `none`; shared shape of the Rust integer parsers. -/
def parseDigitsBelow (ds : List Char) (bound : Nat) : Option Nat :=
  if ds ≠ [] ∧ ds.all isDigitChar ∧ digitsToNat ds < bound then some (digitsToNat ds)
  else none

/-- Model of Rust `str::parse::<u8>`: an optional `+` sign followed by at
least one decimal digit, value at most 255. -/
def rustParseU8 (s : String) : Option Nat :=
  match s.data with
  | [] => none
  | c :: rest =>
      if c = '+' then parseDigitsBelow rest 256
      else parseDigitsBelow (c :: rest) 256

/-- Model of Rust `str::parse::<i64>`: an optional sign followed by at least
one decimal digit, value within the `i64` range. -/
def rustParseI64 (s : String) : Option Int :=
  match s.data with
  | [] => none
  | c :: rest =>
      if c = '-' then (parseDigitsBelow rest (2 ^ 63 + 1)).map (fun n => -(n : Int))
      else if c = '+' then (parseDigitsBelow rest (2 ^ 63)).map (fun n => (n : Int))
      else (parseDigitsBelow (c :: rest) (2 ^ 63)).map (fun n => (n : Int))

/-- Model of Rust `str::replace("\"", "")`: drop every double-quote character. -/
def removeQuotes (s : String) : String := String.mk (s.data.filter (fun c => c ≠ '\"'))

/-- Drop leading double-quote characters. -/
def dropLeadQuotes (cs : List Char) : List Char := cs.dropWhile (fun c => c = '\"')

/-- Model of Rust `str::trim_matches('"')`: drop all leading and trailing
double-quote characters. -/
def trimQuotes (s : String) : String :=
  String.mk (((dropLeadQuotes s.data).reverse.dropWhile (fun c => c = '\"')).reverse)

/-- Model of Rust `str::to_lowercase` (ASCII-faithful). -/
def toLowerStr (s : String) : String := String.mk (s.data.map Char.toLower)

/-- A string is emission-safe when it contains no double quote, no
backslash and no line-break characters, so that it can stand verbatim
inside a single-line Lua string literal. -/
def goodChar (c : Char) : Bool := c ≠ '\"' && c ≠ '\\' && c ≠ '\n' && c ≠ '\r'

/-- All characters of the string are emission-safe. -/
def goodStr (s : String) : Bool := s.data.all goodChar

/-! ### Talent entries (`lua_talent.rs`, `TalentLoadout`) -/

/-- A single talent loadout entry: `{ icon: i64, name: String, text: String }`. -/
structure TalentLoadout where
  icon : Int
  name : String
  text : String
deriving DecidableEq

/-- `TalentLoadout::new`: fresh entry with `icon = 0`. -/
def TalentLoadout.new (name text : String) : TalentLoadout :=
  { icon := 0, name := name, text := text }

/-- `TalentLoadout::is_auto_generated`: the name ends with the `_ARCT` suffix
(Rust `str::ends_with`, modelled as a character-suffix test). -/
def TalentLoadout.is_auto_generated (t : TalentLoadout) : Bool :=
  List.isSuffixOf ("_ARCT".data) t.name.data

/-! ### The store (`lua_talent.rs`, `LuaTalentManager`) -/

/-- Talents of one class, keyed by specialization index
(`HashMap<u8, Vec<TalentLoadout>>` as an association list). -/
abbrev ClassTalents : Type := List (Nat × List TalentLoadout)

/-- The full store: class name to class talents
(`HashMap<String, ClassTalents>` as an association list). -/
abbrev StoreMap : Type := List (String × ClassTalents)

/-- First-match association-list lookup: models `HashMap::get`. -/
def alookup {α β : Type} [DecidableEq α] (k : α) : List (α × β) → Option β
  | [] => none
  | (k2, v) :: rest => if k2 = k then some v else alookup k rest

/-- Association-list insert: models `HashMap::insert` (replaces the value of
an existing key, appends a new key). -/
def ainsert {α β : Type} [DecidableEq α] (k : α) (v : β) : List (α × β) → List (α × β)
  | [] => [(k, v)]
  | (k2, w) :: rest => if k2 = k then (k2, v) :: rest else (k2, w) :: ainsert k v rest

/-- Append a talent to one slot of a class bucket, creating the slot when
absent: models `entry(spec_index).or_insert_with(Vec::new).push(talent)`. -/
def pushSlot (i : Nat) (t : TalentLoadout) : ClassTalents → ClassTalents
  | [] => [(i, [t])]
  | (j, slot) :: rest =>
      if j = i then (j, slot ++ [t]) :: rest else (j, slot) :: pushSlot i t rest

/-- `LuaTalentManager::add_talent`: appends to the slot, creating class
bucket and slot when absent. -/
def add_talent (c : String) (i : Nat) (t : TalentLoadout) : StoreMap → StoreMap
  | [] => [(c, [(i, [t])])]
  | (c2, ct) :: rest =>
      if c2 = c then (c2, pushSlot i t ct) :: rest
      else (c2, ct) :: add_talent c i t rest

/-- Filter machine-owned talents out of one slot when the slot exists
(`get_mut` then `retain`). -/
def filterSlot (i : Nat) : ClassTalents → ClassTalents
  | [] => []
  | (j, slot) :: rest =>
      if j = i then (j, slot.filter (fun t => ! t.is_auto_generated)) :: rest
      else (j, slot) :: filterSlot i rest

/-- `LuaTalentManager::remove_auto_generated`: retains only entries failing
the recognition predicate, for exactly one slot; no-op when class or slot is
absent. -/
def remove_auto_generated (c : String) (i : Nat) : StoreMap → StoreMap
  | [] => []
  | (c2, ct) :: rest =>
      if c2 = c then (c2, filterSlot i ct) :: rest
      else (c2, ct) :: remove_auto_generated c i rest

/-- `LuaTalentManager::remove_all_auto_generated`: applies the retain across
every class and slot. -/
def remove_all_auto_generated (s : StoreMap) : StoreMap :=
  s.map (fun p => (p.1, p.2.map (fun q => (q.1, q.2.filter (fun t => ! t.is_auto_generated)))))

/-- `LuaTalentManager::get_class_talents`. -/
def lookupClass (s : StoreMap) (c : String) : Option ClassTalents := alookup c s

/-- `LuaTalentManager::get_spec_talents`. -/
def lookupSlot (s : StoreMap) (c : String) (i : Nat) : Option (List TalentLoadout) :=
  (lookupClass s c).bind (fun ct => alookup i ct)

/-! ### Encoding (`to_lua_string`) -/

/-- One emitted entry line:
`      { ["icon"] = I, ["name"] = "N", ["text"] = "T" },`. -/
def talentLine (t : TalentLoadout) : String :=
  "      \x7b [\"icon\"] = " ++ intRepr t.icon ++ ", [\"name\"] = \"" ++ t.name ++
    "\", [\"text\"] = \"" ++ t.text ++ "\" \x7d,\n"

/-- One emitted specialization slot block. -/
def slotBlock (i : Nat) (ts : List TalentLoadout) : String :=
  "    [" ++ natRepr i ++ "] = \x7b\n" ++ String.join (ts.map talentLine) ++ "    \x7d,\n"

/-- Specialization indices of a class bucket in ascending order
(`spec_indices.sort()`, modelled by a stable executable sort). -/
def sortedSpecIndices (ct : ClassTalents) : List Nat :=
  List.insertionSort (fun a b => a ≤ b) (ct.map Prod.fst)

/-- One emitted class block, slots in ascending index order. -/
def classBlock (c : String) (ct : ClassTalents) : String :=
  "  [\"" ++ c ++ "\"] = \x7b\n" ++
    String.join ((sortedSpecIndices ct).map (fun i => slotBlock i ((alookup i ct).getD []))) ++
    "  \x7d,\n"

/-- Class names of the store in lexicographic order (`class_names.sort()`,
modelled by a stable executable sort). -/
def sortedClassNames (s : StoreMap) : List String :=
  List.insertionSort (fun a b => a ≤ b) (s.map Prod.fst)

/-- The constant `OPTION` block emitted after every class block. -/
def optionLine : String := "  [\"OPTION\"] = \x7b [\"IsEnabledPvp\"] = false \x7d,\n"

/-- `LuaTalentManager::to_lua_string`: class keys in lexicographic order,
specialization keys ascending, entries in slot order, then the constant
`OPTION` block. -/
def to_lua_string (s : StoreMap) : String :=
  "TalentLoadoutEx = \x7b\n" ++
    String.join ((sortedClassNames s).map (fun c => classBlock c ((lookupClass s c).getD []))) ++
    optionLine ++ "\x7d\n"

/-! ### Lua table AST

Mirrors the shapes of `full_moon::ast` that the decoder inspects:
`Expression::{String, Number, TableConstructor, ...}` and
`Field::{ExpressionKey, NameKey, NoKey}`.  String and number constructors
hold the raw token text (for strings that includes the surrounding
quotes, which is why the decoder strips quote characters). -/

mutual

inductive LuaExpr : Type where
  | str : String → LuaExpr
  | num : String → LuaExpr
  | boolean : Bool → LuaExpr
  | var : String → LuaExpr
  | neg : LuaExpr → LuaExpr
  | table : List LuaField → LuaExpr

inductive LuaField : Type where
  | exprKey : LuaExpr → LuaExpr → LuaField
  | nameKey : String → LuaExpr → LuaField
  | noKey : LuaExpr → LuaField

end

/-- One Lua statement of the modelled subset: a (possibly multiple)
assignment `v1, v2, ... = e1, e2, ...` with plain name variables
(`Var::Name`). -/
inductive LuaStmt : Type where
  | assignment : List String → List LuaExpr → LuaStmt

/-! ### Decoding the AST (`parse_single_talent`, `parse_talent_list`,
`parse_class_talents`, `parse_talent_table`, `parse_lua`) -/

/-- Step of `parse_single_talent`: fold one field into the
`(icon, name, text)` accumulator. -/
def singleTalentStep (acc : Int × String × String) (f : LuaField) : Int × String × String :=
  let kv : Option (String × LuaExpr) :=
    match f with
    | .exprKey key value =>
        match key with
        | .str s => some (trimQuotes s, value)
        | _ => none
    | .nameKey k value => some (k, value)
    | .noKey _ => none
  match kv with
  | none => acc
  | some (key_str, value) =>
      if key_str = "icon" then
        match value with
        | .num tok => ((rustParseI64 tok).getD 0, acc.2.1, acc.2.2)
        | _ => acc
      else if key_str = "name" then
        match value with
        | .str s => (acc.1, trimQuotes s, acc.2.2)
        | _ => acc
      else if key_str = "text" then
        match value with
        | .str s => (acc.1, acc.2.1, trimQuotes s)
        | _ => acc
      else acc

/-- `parse_single_talent`: recognizes `icon`, `name`, `text` under bracketed
string keys or bare-name keys; unrecognized fields are ignored; absent
fields default to `0` / `""`.  The Rust function returns `Ok` on every
input. -/
def parse_single_talent (fields : List LuaField) : TalentLoadout :=
  let st := fields.foldl singleTalentStep (0, "", "")
  { icon := st.1, name := st.2.1, text := st.2.2 }

/-- `parse_talent_list`: each list-style (`NoKey`) table literal becomes one
entry; every other field shape is skipped. -/
def parse_talent_list : List LuaField → List TalentLoadout
  | [] => []
  | .noKey (.table lf) :: rest => parse_single_talent lf :: parse_talent_list rest
  | _ :: rest => parse_talent_list rest

/-- Step of `parse_class_talents`: a field whose key is a number token
parsing as `u8` and whose value is a table becomes one slot. -/
def classTalentsStep (acc : ClassTalents) (f : LuaField) : ClassTalents :=
  match f with
  | .exprKey (.num tok) value =>
      match rustParseU8 tok with
      | some spec_index =>
          match value with
          | .table talentFields => ainsert spec_index (parse_talent_list talentFields) acc
          | _ => acc
      | none => acc
  | _ => acc

/-- `parse_class_talents`: walks the spec table of one class. -/
def parse_class_talents (fields : List LuaField) : ClassTalents :=
  fields.foldl classTalentsStep []

/-- Step of `parse_talent_table`: a field whose key is a string token
becomes one class, except the `OPTION` key which is skipped entirely. -/
def talentTableStep (acc : StoreMap) (f : LuaField) : StoreMap :=
  match f with
  | .exprKey key value =>
      match key with
      | .str tok =>
          let class_name := removeQuotes tok
          if class_name = "OPTION" then acc
          else
            match value with
            | .table specFields => ainsert class_name (parse_class_talents specFields) acc
            | _ => acc
      | _ => acc
  | _ => acc

/-- `parse_talent_table`: walks the top-level class table. -/
def parse_talent_table (fields : List LuaField) : StoreMap :=
  fields.foldl talentTableStep []

/-! ### Modelled text parser

Modelled from the spec: the repository delegates text parsing to the
external `full_moon` Lua parsing library, which is not part of the
repository source.  Following the design note of the spec ("model it as a
tagged-variant tree ... table literal = ordered list of key/value pairs"),
the model below is an executable recursive-descent parser for the
table-literal subset of Lua that this save format uses: assignment
statements `Name = expr`, string/number/boolean literals, unary minus and
nested table constructors with `[expr] = expr`, `Name = expr` and
positional fields separated by `,` or `;` (trailing separators allowed).
A document the model cannot parse is a fatal decode error, mirroring a
`full_moon` parse failure. -/

/-- Skip leading whitespace. -/
def skipWs : List Char → List Char
  | [] => []
  | c :: cs => if isWsChar c then skipWs cs else c :: cs

/-- Scan the body of a double-quoted string literal up to the closing
quote.  Escapes and raw line breaks are outside the modelled subset. -/
def takeStr : List Char → Option (List Char × List Char)
  | [] => none
  | c :: cs =>
      if c = '\"' then some ([], cs)
      else if c = '\\' || c = '\n' || c = '\r' then none
      else (takeStr cs).map (fun p => (c :: p.1, p.2))

/-- Split off the longest prefix satisfying the predicate. -/
def spanP (p : Char → Bool) : List Char → List Char × List Char
  | [] => ([], [])
  | c :: cs =>
      if p c then
        let q := spanP p cs
        (c :: q.1, q.2)
      else ([], c :: cs)

/-- A scanned name becomes a keyword literal or a variable reference. -/
def nameExpr (s : String) : LuaExpr :=
  if s = "false" then .boolean false
  else if s = "true" then .boolean true
  else .var s

mutual

/-- Parse one expression of the modelled subset. -/
def parseExprC : Nat → List Char → Option (LuaExpr × List Char)
  | 0, _ => none
  | fuel + 1, cs =>
      match skipWs cs with
      | [] => none
      | c :: rest =>
          if c = '\"' then
            (takeStr rest).map (fun p => (LuaExpr.str (String.mk ('\"' :: (p.1 ++ ['\"']))), p.2))
          else if isDigitChar c then
            let q := spanP isDigitChar (c :: rest)
            some (LuaExpr.num (String.mk q.1), q.2)
          else if isNameStartChar c then
            let q := spanP isNameChar (c :: rest)
            some (nameExpr (String.mk q.1), q.2)
          else if c = '\x7b' then
            (parseFieldsC fuel rest).map (fun p => (LuaExpr.table p.1, p.2))
          else if c = '-' then
            (parseExprC fuel rest).map (fun p => (LuaExpr.neg p.1, p.2))
          else none

/-- Parse the fields of a table constructor after its opening brace, up to
and including the closing brace. -/
def parseFieldsC : Nat → List Char → Option (List LuaField × List Char)
  | 0, _ => none
  | fuel + 1, cs =>
      match skipWs cs with
      | [] => none
      | c :: rest =>
          if c = '\x7d' then some ([], rest)
          else if c = '[' then
            match parseExprC fuel rest with
            | none => none
            | some (k, r1) =>
                match skipWs r1 with
                | ']' :: r2 =>
                    match skipWs r2 with
                    | '=' :: r3 =>
                        match parseExprC fuel r3 with
                        | none => none
                        | some (v, r4) => parseSepC fuel (LuaField.exprKey k v) r4
                    | _ => none
                | _ => none
          else if isNameStartChar c then
            let q := spanP isNameChar (c :: rest)
            match skipWs q.2 with
            | '=' :: r2 =>
                match parseExprC fuel r2 with
                | none => none
                | some (v, r3) => parseSepC fuel (LuaField.nameKey (String.mk q.1) v) r3
            | _ => parseSepC fuel (LuaField.noKey (nameExpr (String.mk q.1))) q.2
          else
            match parseExprC fuel (c :: rest) with
            | none => none
            | some (v, r1) => parseSepC fuel (LuaField.noKey v) r1

/-- After one parsed field: a separator continues the field list, a closing
brace ends it. -/
def parseSepC : Nat → LuaField → List Char → Option (List LuaField × List Char)
  | 0, _, _ => none
  | fuel + 1, f, cs =>
      match skipWs cs with
      | ',' :: rest => (parseFieldsC fuel rest).map (fun p => (f :: p.1, p.2))
      | ';' :: rest => (parseFieldsC fuel rest).map (fun p => (f :: p.1, p.2))
      | '\x7d' :: rest => some ([f], rest)
      | _ => none

end

/-- Parse a chunk: a sequence of single assignments `Name = expr` running to
the end of input. -/
def parseChunkC : Nat → List Char → Option (List LuaStmt)
  | 0, _ => none
  | fuel + 1, cs =>
      match skipWs cs with
      | [] => some []
      | c :: rest =>
          if isNameStartChar c then
            let q := spanP isNameChar (c :: rest)
            match skipWs q.2 with
            | '=' :: r2 =>
                match parseExprC fuel r2 with
                | none => none
                | some (v, r3) =>
                    (parseChunkC fuel r3).map
                      (fun stmts => LuaStmt.assignment [String.mk q.1] [v] :: stmts)
            | _ => none
          else none

/-- Model of `full_moon::parse`: parse a whole document, or fail. -/
def luaParse (s : String) : Option (List LuaStmt) :=
  parseChunkC (s.data.length + 1) s.data

/-- The statement walk of `parse_lua`: for every assignment whose variable
list contains `TalentLoadoutEx`, when the first assigned expression is a
table constructor the store is replaced by the decoded table. -/
def parse_lua_stmts (stmts : List LuaStmt) : StoreMap :=
  stmts.foldl
    (fun talents stmt =>
      match stmt with
      | .assignment vars exprs =>
          if "TalentLoadoutEx" ∈ vars then
            match exprs.head? with
            | some (.table fields) => parse_talent_table fields
            | _ => talents
          else talents)
    []

/-- `LuaTalentManager::parse_lua`: parse the document (fatal on failure),
then walk the statements. -/
def parse_lua (content : String) : Except String StoreMap :=
  match luaParse content with
  | none => Except.error ("Failed to parse Lua file")
  | some stmts => Except.ok (parse_lua_stmts stmts)

/-! ### Identifier scheme and time windows (`archon.rs`) -/

/-- `RaidDifficulty`. -/
inductive RaidDifficulty : Type where
  | Normal | Heroic | Mythic
deriving DecidableEq

/-- `RaidDifficulty::from_str` (case-insensitive). -/
def RaidDifficulty.from_str (s : String) : Option RaidDifficulty :=
  if toLowerStr s = "normal" then some .Normal
  else if toLowerStr s = "heroic" then some .Heroic
  else if toLowerStr s = "mythic" then some .Mythic
  else none

/-- `RaidDifficulty::as_str`. -/
def RaidDifficulty.as_str : RaidDifficulty → String
  | .Normal => "normal"
  | .Heroic => "heroic"
  | .Mythic => "mythic"

/-- `MythicPlusTimespan`. -/
inductive MythicPlusTimespan : Type where
  | ThisWeek | LastWeek
deriving DecidableEq

/-- `MythicPlusTimespan::as_str`. -/
def MythicPlusTimespan.as_str : MythicPlusTimespan → String
  | .ThisWeek => "this-week"
  | .LastWeek => "last-week"

/-- Days of the week; the hidden clock of `chrono::Local::now().weekday()`
made explicit. -/
inductive Weekday : Type where
  | mon | tue | wed | thu | fri | sat | sun
deriving DecidableEq

/-- `MythicPlusTimespan::primary_for_today`: on Wednesday (reset day)
prefer last-week first, on other days this-week first. -/
def MythicPlusTimespan.primary_for_today (w : Weekday) : MythicPlusTimespan :=
  if w = Weekday.wed then .LastWeek else .ThisWeek

/-- `MythicPlusTimespan::fallback`: the opposite timespan. -/
def MythicPlusTimespan.fallback : MythicPlusTimespan → MythicPlusTimespan
  | .ThisWeek => .LastWeek
  | .LastWeek => .ThisWeek

/-- `TalentIdentifier`. -/
inductive TalentIdentifier : Type where
  | Raid : RaidDifficulty → String → TalentIdentifier
  | MythicPlus : String → TalentIdentifier
deriving DecidableEq

/-- `TalentIdentifier::as_identifier`: `R-<difficulty>-<boss>` or
`M+-<dungeon>`. -/
def TalentIdentifier.as_identifier : TalentIdentifier → String
  | .Raid difficulty boss => "R-" ++ difficulty.as_str ++ "-" ++ boss
  | .MythicPlus dungeon => "M+-" ++ dungeon

/-- `TalentIdentifier::as_talent_name`: the identifier with the `_ARCT`
suffix. -/
def TalentIdentifier.as_talent_name (id : TalentIdentifier) : String :=
  id.as_identifier ++ "_ARCT"

/-! ### Class catalogue (`wow.rs`) -/

/-- `WowClass`. -/
inductive WowClass : Type where
  | Warrior | Paladin | Hunter | Rogue | Priest | DeathKnight | Shaman
  | Mage | Warlock | Monk | Druid | DemonHunter | Evoker
deriving DecidableEq

/-- `WowClass::from_str` (PascalCase names). -/
def WowClass.from_str (s : String) : Option WowClass :=
  if s = "Warrior" then some .Warrior
  else if s = "Paladin" then some .Paladin
  else if s = "Hunter" then some .Hunter
  else if s = "Rogue" then some .Rogue
  else if s = "Priest" then some .Priest
  else if s = "DeathKnight" then some .DeathKnight
  else if s = "Shaman" then some .Shaman
  else if s = "Mage" then some .Mage
  else if s = "Warlock" then some .Warlock
  else if s = "Monk" then some .Monk
  else if s = "Druid" then some .Druid
  else if s = "DemonHunter" then some .DemonHunter
  else if s = "Evoker" then some .Evoker
  else none

/-- `WowClass::to_url_format`. -/
def WowClass.to_url_format : WowClass → String
  | .Warrior => "warrior"
  | .Paladin => "paladin"
  | .Hunter => "hunter"
  | .Rogue => "rogue"
  | .Priest => "priest"
  | .DeathKnight => "death-knight"
  | .Shaman => "shaman"
  | .Mage => "mage"
  | .Warlock => "warlock"
  | .Monk => "monk"
  | .Druid => "druid"
  | .DemonHunter => "demon-hunter"
  | .Evoker => "evoker"

/-- `WowClass::to_lua_format`. -/
def WowClass.to_lua_format : WowClass → String
  | .Warrior => "WARRIOR"
  | .Paladin => "PALADIN"
  | .Hunter => "HUNTER"
  | .Rogue => "ROGUE"
  | .Priest => "PRIEST"
  | .DeathKnight => "DEATHKNIGHT"
  | .Shaman => "SHAMAN"
  | .Mage => "MAGE"
  | .Warlock => "WARLOCK"
  | .Monk => "MONK"
  | .Druid => "DRUID"
  | .DemonHunter => "DEMONHUNTER"
  | .Evoker => "EVOKER"

/-- `WowClass::spec_index` via the per-class spec-name map of
`get_spec_map`. -/
def WowClass.spec_index (c : WowClass) (spec_name : String) : Option Nat :=
  match c with
  | .Warrior =>
      if spec_name = "arms" then some 1
      else if spec_name = "fury" then some 2
      else if spec_name = "protection" then some 3
      else none
  | .Paladin =>
      if spec_name = "holy" then some 1
      else if spec_name = "protection" then some 2
      else if spec_name = "retribution" then some 3
      else none
  | .Hunter =>
      if spec_name = "beast-mastery" then some 1
      else if spec_name = "marksmanship" then some 2
      else if spec_name = "survival" then some 3
      else none
  | .Rogue =>
      if spec_name = "assassination" then some 1
      else if spec_name = "combat" then some 2
      else if spec_name = "subtlety" then some 3
      else none
  | .Priest =>
      if spec_name = "discipline" then some 1
      else if spec_name = "holy" then some 2
      else if spec_name = "shadow" then some 3
      else none
  | .DeathKnight =>
      if spec_name = "blood" then some 1
      else if spec_name = "frost" then some 2
      else if spec_name = "unholy" then some 3
      else none
  | .Shaman =>
      if spec_name = "elemental" then some 1
      else if spec_name = "enhancement" then some 2
      else if spec_name = "restoration" then some 3
      else none
  | .Mage =>
      if spec_name = "arcane" then some 1
      else if spec_name = "fire" then some 2
      else if spec_name = "frost" then some 3
      else none
  | .Warlock =>
      if spec_name = "affliction" then some 1
      else if spec_name = "demonology" then some 2
      else if spec_name = "destruction" then some 3
      else none
  | .Monk =>
      if spec_name = "brewmaster" then some 1
      else if spec_name = "mistweaver" then some 2
      else if spec_name = "windwalker" then some 3
      else none
  | .Druid =>
      if spec_name = "balance" then some 1
      else if spec_name = "feral" then some 2
      else if spec_name = "guardian" then some 3
      else if spec_name = "restoration" then some 4
      else none
  | .DemonHunter =>
      if spec_name = "havoc" then some 1
      else if spec_name = "vengeance" then some 2
      else none
  | .Evoker =>
      if spec_name = "devastation" then some 1
      else if spec_name = "preservation" then some 2
      else none

/-- `ArchonUrlBuilder` base URL. -/
def base_url : String := "https://www.archon.gg/wow/builds"

/-- `ArchonUrlBuilder::build_raid_url`. -/
def build_raid_url (c : WowClass) (spec : String) (difficulty : RaidDifficulty)
    (boss : String) : String :=
  base_url ++ "/" ++ toLowerStr spec ++ "/" ++ c.to_url_format ++ "/raid/overview/" ++
    difficulty.as_str ++ "/" ++ toLowerStr boss

/-- `ArchonUrlBuilder::build_mythic_plus_url` (note the double slash). -/
def build_mythic_plus_url (c : WowClass) (spec : String) (dungeon : String)
    (timespan : MythicPlusTimespan) : String :=
  base_url ++ "/" ++ toLowerStr spec ++ "/" ++ c.to_url_format ++
    "/mythic-plus/overview/10//" ++ toLowerStr dungeon ++ "/" ++ timespan.as_str

/-! ### Orchestrator (`orchestrator.rs`, `config.rs`)

The orchestrator is embedded as a pure function.  The Build Source
(`ArchonFetcher::fetch_talent_build`, an external network collaborator) is
a parameter `f : FetchFn` returning found / not-found / transport error;
the current weekday (the hidden clock) and the contents of the persisted
file at the output path are explicit parameters.  Every embedded stage
additionally records the trace of its observable effects — fetches,
store insertions and the final file write — so that ordering claims can be
stated. -/

/-- One configured character (`config.rs`, `Character`). -/
structure Character : Type where
  name : String
  className : String
  specializations : List String
deriving DecidableEq

/-- The run configuration (`config.rs`, `Config`); the output path itself
is abstracted away (the file contents at that path are a `run` parameter). -/
structure Config : Type where
  characters : List Character
  raid_difficulties : List String
  raid_bosses : List String
  dungeons : List String
  clear_previous_builds : Bool
deriving DecidableEq

/-- `UpdateSummary`. -/
structure UpdateSummary : Type where
  total_talents_updated : Nat
  raid_talents : Nat
  mythic_plus_talents : Nat
  characters_processed : Nat
deriving DecidableEq

/-- Observable effects of a run. -/
inductive Event : Type where
  | fetched : String → Event
  | added : String → Nat → TalentLoadout → Event
  | wrote : String → Event
deriving DecidableEq

/-- The Build Source: URL to found payload / not found / transport error. -/
abbrev FetchFn : Type := String → Except String (Option String)

/-- Inner loop of `fetch_raid_builds` over the configured difficulties for
one boss. -/
def raidDiffLoop (f : FetchFn) (wc : WowClass) (spec : String) (si : Nat) (boss : String) :
    List String → StoreMap → List Event × Except String (StoreMap × Nat)
  | [], tm => ([], Except.ok (tm, 0))
  | d :: ds, tm =>
      match RaidDifficulty.from_str d with
      | none => ([], Except.error ("Invalid difficulty: " ++ d))
      | some difficulty =>
          let url := build_raid_url wc spec difficulty boss
          match f url with
          | Except.error e => ([Event.fetched url], Except.error e)
          | Except.ok (some talent_string) =>
              let identifier := TalentIdentifier.Raid difficulty boss
              let talent := TalentLoadout.new identifier.as_talent_name talent_string
              let tm2 := add_talent (wc.to_lua_format) si talent tm
              let r := raidDiffLoop f wc spec si boss ds tm2
              (Event.fetched url :: Event.added (wc.to_lua_format) si talent :: r.1,
               match r.2 with
               | Except.error e => Except.error e
               | Except.ok (tm3, n) => Except.ok (tm3, n + 1))
          | Except.ok none =>
              let r := raidDiffLoop f wc spec si boss ds tm
              (Event.fetched url :: r.1, r.2)

/-- Outer loop of `fetch_raid_builds` over the configured bosses. -/
def raidBossLoop (f : FetchFn) (cfg : Config) (wc : WowClass) (spec : String) (si : Nat) :
    List String → StoreMap → List Event × Except String (StoreMap × Nat)
  | [], tm => ([], Except.ok (tm, 0))
  | boss :: bs, tm =>
      let r := raidDiffLoop f wc spec si boss cfg.raid_difficulties tm
      match r.2 with
      | Except.error e => (r.1, Except.error e)
      | Except.ok (tm2, n) =>
          let r2 := raidBossLoop f cfg wc spec si bs tm2
          (r.1 ++ r2.1,
           match r2.2 with
           | Except.error e => Except.error e
           | Except.ok (tm3, m) => Except.ok (tm3, n + m))

/-- `fetch_raid_builds`: Cartesian product of bosses and difficulties. -/
def fetch_raid_builds (f : FetchFn) (cfg : Config) (wc : WowClass) (spec : String)
    (si : Nat) (tm : StoreMap) : List Event × Except String (StoreMap × Nat) :=
  raidBossLoop f cfg wc spec si cfg.raid_bosses tm

/-- Loop of `fetch_mythic_plus_builds` over the configured dungeons:
primary time window first, fallback window on a not-found result. -/
def mpDungeonLoop (f : FetchFn) (w : Weekday) (wc : WowClass) (spec : String) (si : Nat) :
    List String → StoreMap → List Event × Except String (StoreMap × Nat)
  | [], tm => ([], Except.ok (tm, 0))
  | dungeon :: ds, tm =>
      let identifier := TalentIdentifier.MythicPlus dungeon
      let primary_timespan := MythicPlusTimespan.primary_for_today w
      let url := build_mythic_plus_url wc spec dungeon primary_timespan
      match f url with
      | Except.error e => ([Event.fetched url], Except.error e)
      | Except.ok (some talent_string) =>
          let talent := TalentLoadout.new identifier.as_talent_name talent_string
          let tm2 := add_talent (wc.to_lua_format) si talent tm
          let r := mpDungeonLoop f w wc spec si ds tm2
          (Event.fetched url :: Event.added (wc.to_lua_format) si talent :: r.1,
           match r.2 with
           | Except.error e => Except.error e
           | Except.ok (tm3, n) => Except.ok (tm3, n + 1))
      | Except.ok none =>
          let fallback_url :=
            build_mythic_plus_url wc spec dungeon primary_timespan.fallback
          match f fallback_url with
          | Except.error e => ([Event.fetched url, Event.fetched fallback_url], Except.error e)
          | Except.ok (some talent_string) =>
              let talent := TalentLoadout.new identifier.as_talent_name talent_string
              let tm2 := add_talent (wc.to_lua_format) si talent tm
              let r := mpDungeonLoop f w wc spec si ds tm2
              (Event.fetched url :: Event.fetched fallback_url ::
                 Event.added (wc.to_lua_format) si talent :: r.1,
               match r.2 with
               | Except.error e => Except.error e
               | Except.ok (tm3, n) => Except.ok (tm3, n + 1))
          | Except.ok none =>
              let r := mpDungeonLoop f w wc spec si ds tm
              (Event.fetched url :: Event.fetched fallback_url :: r.1, r.2)

/-- `fetch_mythic_plus_builds`. -/
def fetch_mythic_plus_builds (f : FetchFn) (w : Weekday) (cfg : Config) (wc : WowClass)
    (spec : String) (si : Nat) (tm : StoreMap) :
    List Event × Except String (StoreMap × Nat) :=
  mpDungeonLoop f w wc spec si cfg.dungeons tm

/-- Loop of `run` over the specializations of one character: resolve the
index, clear the one slot (scoped-clear path), fetch raid and dungeon
builds. -/
def specLoop (f : FetchFn) (w : Weekday) (cfg : Config) (wc : WowClass) (clsStr : String) :
    List String → StoreMap → List Event × Except String (StoreMap × Nat × Nat)
  | [], tm => ([], Except.ok (tm, 0, 0))
  | spec :: rest, tm =>
      match wc.spec_index spec with
      | none => ([], Except.error ("Invalid spec " ++ spec ++ " for class " ++ clsStr))
      | some si =>
          let tm1 := if ! cfg.clear_previous_builds then
                       remove_auto_generated (wc.to_lua_format) si tm
                     else tm
          let raidR : List Event × Except String (StoreMap × Nat) :=
            if ! cfg.raid_bosses.isEmpty && ! cfg.raid_difficulties.isEmpty then
              fetch_raid_builds f cfg wc spec si tm1
            else ([], Except.ok (tm1, 0))
          match raidR.2 with
          | Except.error e => (raidR.1, Except.error e)
          | Except.ok (tm2, rn) =>
              let mpR : List Event × Except String (StoreMap × Nat) :=
                if ! cfg.dungeons.isEmpty then
                  fetch_mythic_plus_builds f w cfg wc spec si tm2
                else ([], Except.ok (tm2, 0))
              match mpR.2 with
              | Except.error e => (raidR.1 ++ mpR.1, Except.error e)
              | Except.ok (tm3, mn) =>
                  let r := specLoop f w cfg wc clsStr rest tm3
                  (raidR.1 ++ mpR.1 ++ r.1,
                   match r.2 with
                   | Except.error e => Except.error e
                   | Except.ok (tm4, rn2, mn2) => Except.ok (tm4, rn + rn2, mn + mn2))

/-- Loop of `run` over the configured characters: resolve each class, then
process its specializations. -/
def charLoop (f : FetchFn) (w : Weekday) (cfg : Config) :
    List Character → StoreMap → List Event × Except String (StoreMap × Nat × Nat)
  | [], tm => ([], Except.ok (tm, 0, 0))
  | ch :: rest, tm =>
      match WowClass.from_str ch.className with
      | none => ([], Except.error ("Invalid class: " ++ ch.className))
      | some wc =>
          let r := specLoop f w cfg wc ch.className ch.specializations tm
          match r.2 with
          | Except.error e => (r.1, Except.error e)
          | Except.ok (tm2, rn, mn) =>
              let r2 := charLoop f w cfg rest tm2
              (r.1 ++ r2.1,
               match r2.2 with
               | Except.error e => Except.error e
               | Except.ok (tm3, rn2, mn2) => Except.ok (tm3, rn + rn2, mn + mn2))

/-- `TalentOrchestrator::run`: load (or start empty), optionally clear all
machine-owned entries, process every character, then write the encoded
store once at the end.  `fileContents` is the contents of the persisted
file at the configured output path (`none` when the file does not exist). -/
def run (f : FetchFn) (w : Weekday) (cfg : Config) (fileContents : Option String) :
    List Event × Except String UpdateSummary :=
  let loaded : Except String StoreMap :=
    match fileContents with
    | some content =>
        match parse_lua content with
        | Except.error _ => Except.error ("Failed to load existing talents")
        | Except.ok tm => Except.ok tm
    | none => Except.ok []
  match loaded with
  | Except.error e => ([], Except.error e)
  | Except.ok tm0 =>
      let tm1 := if cfg.clear_previous_builds then remove_all_auto_generated tm0 else tm0
      let r := charLoop f w cfg cfg.characters tm1
      match r.2 with
      | Except.error e => (r.1, Except.error e)
      | Except.ok (tmF, rn, mn) =>
          (r.1 ++ [Event.wrote (to_lua_string tmF)],
           Except.ok
             { total_talents_updated := rn + mn
               raid_talents := rn
               mythic_plus_talents := mn
               characters_processed := cfg.characters.length })

/-! ### Definitions supporting the claim statements -/

/-- Two stores have the same class-to-slot-to-entry contents: the same
classes are present, and every slot lookup agrees (including entry order
within slots). -/
def sameContents (s1 s2 : StoreMap) : Prop :=
  (∀ c, (lookupClass s1 c).isSome = (lookupClass s2 c).isSome) ∧
    ∀ c i, lookupSlot s1 c i = lookupSlot s2 c i

/-- Representation invariant of the `HashMap`-based store: no duplicate
class keys, and no duplicate specialization keys within a class. -/
def StoreWF (s : StoreMap) : Prop :=
  (s.map Prod.fst).Nodup ∧ ∀ p ∈ s, (p.2.map Prod.fst).Nodup

/-- An entry all of whose strings are emission-safe, whose icon is
nonnegative and within the `i64` range. -/
def goodTalent (t : TalentLoadout) : Bool :=
  goodStr t.name && goodStr t.text && decide (0 ≤ t.icon) && decide (t.icon < 2 ^ 63)

/-- One `add_talent` call: class name, specialization index, entry. -/
abbrev AddOp : Type := String × Nat × TalentLoadout

/-- An `add_talent` call whose class name is emission-safe and not the
reserved `OPTION` key, whose index fits in a `u8`, and whose entry is
emission-safe. -/
def goodOp (op : AddOp) : Bool :=
  decide (op.1 ≠ "OPTION") && goodStr op.1 && decide (op.2.1 < 256) && goodTalent op.2.2

/-- The store built from the empty store by a sequence of `add_talent`
calls. -/
def buildStore (ops : List AddOp) : StoreMap :=
  ops.foldl (fun s op => add_talent op.1 op.2.1 op.2.2 s) []

/-- The round-trip property at one store: decoding the encoded text
succeeds and yields the same contents. -/
def roundTripOk (S : StoreMap) : Prop :=
  match parse_lua (to_lua_string S) with
  | Except.ok S2 => sameContents S2 S
  | Except.error _ => False

/-- The entry produced by one list item of a slot table, when the item is
a table literal. -/
def listItemEntry (f : LuaField) : Option TalentLoadout :=
  match f with
  | LuaField.noKey (LuaExpr.table lf) => some (parse_single_talent lf)
  | _ => none

/-- A field of the shape that decodes to one entry of a slot list. -/
def entryShaped (f : LuaField) : Prop :=
  ∃ lf, f = LuaField.noKey (LuaExpr.table lf)

/-- A field of the shape that decodes to one slot of a class bucket. -/
def slotShaped (f : LuaField) : Prop :=
  ∃ tok n lf, f = LuaField.exprKey (LuaExpr.num tok) (LuaExpr.table lf) ∧
    rustParseU8 tok = some n

/-- A field of the shape that decodes to one class of the store. -/
def classShaped (f : LuaField) : Prop :=
  ∃ tok lf, f = LuaField.exprKey (LuaExpr.str tok) (LuaExpr.table lf)

/-- An event that is not a write and whose added entry, if any, has a zero
icon. -/
def okEvent (e : Event) : Prop :=
  (∀ content, e ≠ Event.wrote content) ∧ ∀ c i t, e = Event.added c i t → t.icon = 0

/-! ### Round-trip apparatus: the abstract syntax tree of an encoded store
and fuel counts for its parse -/

/-- The token text of the string literal holding `s`. -/
def strTok (s : String) : String := "\"" ++ s ++ "\""

/-- The three fields of one encoded entry. -/
def entryFieldsAst (t : TalentLoadout) : List LuaField :=
  [LuaField.exprKey (LuaExpr.str (strTok ("icon"))) (LuaExpr.num (intRepr t.icon)),
   LuaField.exprKey (LuaExpr.str (strTok ("name"))) (LuaExpr.str (strTok t.name)),
   LuaField.exprKey (LuaExpr.str (strTok ("text"))) (LuaExpr.str (strTok t.text))]

/-- One encoded entry as a list item. -/
def entryAst (t : TalentLoadout) : LuaField := LuaField.noKey (LuaExpr.table (entryFieldsAst t))

/-- One encoded specialization slot. -/
def slotFieldAst (i : Nat) (ts : List TalentLoadout) : LuaField :=
  LuaField.exprKey (LuaExpr.num (natRepr i)) (LuaExpr.table (ts.map entryAst))

/-- One encoded class block over an explicit slot list. -/
def classFieldGen (c : String) (sl : List (Nat × List TalentLoadout)) : LuaField :=
  LuaField.exprKey (LuaExpr.str (strTok c))
    (LuaExpr.table (sl.map (fun p => slotFieldAst p.1 p.2)))

/-- The encoded `OPTION` block. -/
def optionFieldAst : LuaField :=
  LuaField.exprKey (LuaExpr.str (strTok ("OPTION")))
    (LuaExpr.table [LuaField.exprKey (LuaExpr.str (strTok ("IsEnabledPvp")))
      (LuaExpr.boolean false)])

/-- The slots of a class bucket in emission order, paired with their
entries. -/
def slotPairs (ct : ClassTalents) : List (Nat × List TalentLoadout) :=
  (sortedSpecIndices ct).map (fun i => (i, (alookup i ct).getD []))

/-- The classes of a store in emission order, paired with their emitted
slot lists. -/
def classPairs (s : StoreMap) : List (String × List (Nat × List TalentLoadout)) :=
  (sortedClassNames s).map (fun c => (c, slotPairs ((lookupClass s c).getD [])))

/-- The fields of the encoded top-level table. -/
def topFieldsAst (s : StoreMap) : List LuaField :=
  (classPairs s).map (fun p => classFieldGen p.1 p.2) ++ [optionFieldAst]

/-- The statement list produced by parsing an encoded store. -/
def storeAst (s : StoreMap) : List LuaStmt :=
  [LuaStmt.assignment ["TalentLoadoutEx"] [LuaExpr.table (topFieldsAst s)]]

/-- The printed text of one class block over an explicit slot list. -/
def classBlockGen (c : String) (sl : List (Nat × List TalentLoadout)) : String :=
  "  [\"" ++ c ++ "\"] = \x7b\n" ++
    String.join (sl.map (fun p => slotBlock p.1 p.2)) ++ "  \x7d,\n"

/-- Characters of the printed entry list of one slot. -/
def entriesChars (ts : List TalentLoadout) : List Char :=
  (String.join (ts.map talentLine)).data

/-- Characters of the printed slot list of one class. -/
def slotsChars (sl : List (Nat × List TalentLoadout)) : List Char :=
  (String.join (sl.map (fun p => slotBlock p.1 p.2))).data

/-- Characters of the printed class blocks. -/
def classesChars (cl : List (String × List (Nat × List TalentLoadout))) : List Char :=
  (String.join (cl.map (fun p => classBlockGen p.1 p.2))).data

/-- Parse fuel sufficient for an entry list. -/
def kEntries : List TalentLoadout → Nat
  | [] => 1
  | _ :: ts => kEntries ts + 10

/-- Parse fuel sufficient for a slot list. -/
def kSlots : List (Nat × List TalentLoadout) → Nat
  | [] => 1
  | p :: sl => kSlots sl + kEntries p.2 + 10

/-- Parse fuel sufficient for the class blocks and the `OPTION` block. -/
def kClasses : List (String × List (Nat × List TalentLoadout)) → Nat
  | [] => 12
  | p :: cl => kClasses cl + kSlots p.2 + 10

/-- Parse fuel sufficient for a whole encoded store. -/
def kTop (s : StoreMap) : Nat := kClasses (classPairs s) + 6

/-- The invariant of stores built by good `add_talent` calls: class keys
are distinct, emission-safe and distinct from `OPTION`; slot keys are
distinct `u8` values; entries are emission-safe with nonnegative in-range
icons. -/
def StoreInv (s : StoreMap) : Prop :=
  (s.map Prod.fst).Nodup ∧
    ∀ p ∈ s, p.1 ≠ "OPTION" ∧ goodStr p.1 = true ∧ (p.2.map Prod.fst).Nodup ∧
      ∀ q ∈ p.2, q.1 < 256 ∧ ∀ t ∈ q.2, goodTalent t = true


/-! ### Association-list lemmas -/

theorem alookup_ainsert {α β : Type} [DecidableEq α] (k k2 : α) (v : β) (a : List (α × β)) :
    alookup k (ainsert k2 v a) = if k2 = k then some v else alookup k a := by
  induction a with
  | nil => simp [ainsert, alookup]
  | cons p rest ih =>
      obtain ⟨k3, w⟩ := p
      by_cases h3 : k3 = k2
      · subst h3
        by_cases h : k3 = k <;> simp [ainsert, alookup, h, ih]
      · by_cases h : k3 = k
        · subst h
          simp only [ainsert, if_neg h3]
          have : ¬ k2 = k3 := fun hh => h3 hh.symm
          simp [alookup, this]
        · simp [ainsert, alookup, h3, h, ih]

theorem alookup_isSome_iff_mem {α β : Type} [DecidableEq α] (k : α) (a : List (α × β)) :
    (alookup k a).isSome = true ↔ k ∈ a.map Prod.fst := by
  induction a with
  | nil => simp [alookup]
  | cons p rest ih =>
      obtain ⟨k2, w⟩ := p
      by_cases h : k2 = k
      · subst h; simp [alookup]
      · have : ¬ k = k2 := fun hh => h hh.symm
        simp [alookup, h, this, ih]

theorem alookup_eq_some_mem {α β : Type} [DecidableEq α] {k : α} {b : β} {a : List (α × β)}
    (h : alookup k a = some b) : (k, b) ∈ a := by
  induction a with
  | nil => simp [alookup] at h
  | cons p rest ih =>
      obtain ⟨k2, w⟩ := p
      by_cases h2 : k2 = k
      · subst h2
        simp [alookup] at h
        simp [h]
      · simp [alookup, h2] at h
        exact List.mem_cons_of_mem _ (ih h)

/-! ### Claim C5: identifier scheme and ownership predicate -/

/-- C5: for every identifier value `x`, the stored name produced by the
identifier scheme is the identifier string followed by the fixed suffix
`_ARCT`, the machine-ownership predicate returns `true` on that name, and
for every name that does not end with `_ARCT` it returns `false`. -/
theorem C5_identifier_scheme :
    ∀ (x : TalentIdentifier) (icon : Int) (text : String),
      x.as_talent_name = x.as_identifier ++ "_ARCT" ∧
      (TalentLoadout.mk icon x.as_talent_name text).is_auto_generated = true ∧
      ∀ (icon2 : Int) (nm text2 : String), ¬ ("_ARCT".data <:+ nm.data) →
        (TalentLoadout.mk icon2 nm text2).is_auto_generated = false := by
  intro x icon text
  refine ⟨rfl, ?_, ?_⟩
  · show List.isSuffixOf _ _ = true
    rw [List.isSuffixOf_iff_suffix]
    show _ <:+ (TalentIdentifier.as_talent_name x).data
    rw [TalentIdentifier.as_talent_name, String.data_append]
    exact List.suffix_append _ _
  · intro icon2 nm text2 h
    show List.isSuffixOf _ _ = false
    rw [Bool.eq_false_iff]
    intro hb
    exact h (List.isSuffixOf_iff_suffix.mp hb)

theorem C5_identifier_scheme_witness :
    (TalentIdentifier.MythicPlus ("ara-kara")).as_talent_name =
        (TalentIdentifier.MythicPlus ("ara-kara")).as_identifier ++ "_ARCT" ∧
      (TalentLoadout.mk 0 ((TalentIdentifier.MythicPlus ("ara-kara")).as_talent_name)
          ("t")).is_auto_generated = true ∧
      (TalentLoadout.mk 0 ("My Build") ("t")).is_auto_generated = false :=
  ⟨(C5_identifier_scheme (TalentIdentifier.MythicPlus ("ara-kara")) 0 ("t")).1,
   (C5_identifier_scheme (TalentIdentifier.MythicPlus ("ara-kara")) 0 ("t")).2.1,
   (C5_identifier_scheme (TalentIdentifier.MythicPlus ("ara-kara")) 0 ("t")).2.2
     0 ("My Build") ("t") (by decide)⟩

/-! ### Claim C9: decoding a single entry never fails -/

/-- C9: an entry literal with no recognized fields decodes to the default
entry `{ icon = 0, name = "", text = "" }`; every list item of a slot
table that is itself a table literal decodes to an entry that is kept, and
only non-table items are dropped. -/
theorem C9_entry_decode_total :
    parse_single_talent [] = { icon := 0, name := "", text := "" } ∧
    (∀ fields, parse_talent_list fields = fields.filterMap listItemEntry) ∧
    parse_talent_list [LuaField.noKey (LuaExpr.table [])] =
      [{ icon := 0, name := "", text := "" }] := by
  refine ⟨rfl, ?_, rfl⟩
  intro fields
  induction fields with
  | nil => rfl
  | cons f rest ih =>
      cases f with
      | noKey e => cases e <;> simp [parse_talent_list, listItemEntry, ih]
      | exprKey k v => simp [parse_talent_list, listItemEntry, ih]
      | nameKey k v => simp [parse_talent_list, listItemEntry, ih]

/-! ### Claim C7: the OPTION sentinel -/

theorem option_lookup_aux (fields : List LuaField) (acc : StoreMap)
    (h : alookup ("OPTION") acc = none) :
    alookup ("OPTION") (List.foldl talentTableStep acc fields) = none := by
  induction fields generalizing acc with
  | nil => exact h
  | cons f rest ih =>
      refine ih _ ?_
      cases f with
      | noKey e => exact h
      | nameKey k v => exact h
      | exprKey k v =>
          cases k with
          | str tok =>
              by_cases hopt : removeQuotes tok = "OPTION"
              · simp [talentTableStep, hopt, h]
              · cases v with
                | table specFields =>
                    simp only [talentTableStep, if_neg hopt]
                    rw [alookup_ainsert]
                    simp [hopt, h]
                | str s => simp [talentTableStep, hopt, h]
                | num s => simp [talentTableStep, hopt, h]
                | boolean b => simp [talentTableStep, hopt, h]
                | var s => simp [talentTableStep, hopt, h]
                | neg e => simp [talentTableStep, hopt, h]
          | num s => exact h
          | boolean b => exact h
          | var s => exact h
          | neg e => exact h
          | table lf => exact h

/-- C7: decode never treats the top-level `OPTION` key as a class (its
sub-table never enters the store), and encode always appends the exact
literal `OPTION` block, followed only by the closing brace, after all class
blocks. -/
theorem C7_option_sentinel :
    (∀ fields, lookupClass (parse_talent_table fields) ("OPTION") = none) ∧
    ∀ s : StoreMap, ∃ p : String, to_lua_string s = p ++ (optionLine ++ "\x7d\n") := by
  constructor
  · intro fields
    exact option_lookup_aux fields [] rfl
  · intro s
    refine ⟨"TalentLoadoutEx = \x7b\n" ++
      String.join ((sortedClassNames s).map (fun c => classBlock c ((lookupClass s c).getD []))), ?_⟩
    simp only [to_lua_string, String.append_assoc]

/-! ### Claim C3: scoped clear of machine-owned entries -/

theorem filterSlot_alookup_self (i : Nat) (ct : ClassTalents) :
    alookup i (filterSlot i ct) =
      (alookup i ct).map (List.filter (fun t => ! t.is_auto_generated)) := by
  induction ct with
  | nil => simp [filterSlot, alookup]
  | cons p rest ih =>
      obtain ⟨j, slot⟩ := p
      by_cases h : j = i
      · subst h; simp [filterSlot, alookup]
      · simp [filterSlot, alookup, h, ih]

theorem filterSlot_alookup_other (i i2 : Nat) (ct : ClassTalents) (h : i2 ≠ i) :
    alookup i2 (filterSlot i ct) = alookup i2 ct := by
  induction ct with
  | nil => simp [filterSlot]
  | cons p rest ih =>
      obtain ⟨j, slot⟩ := p
      by_cases hj : j = i
      · subst hj
        have : ¬ j = i2 := fun hh => h (hh.symm)
        simp [filterSlot, alookup, this]
      · by_cases hj2 : j = i2
        · subst hj2
          simp [filterSlot, alookup, hj, h]
        · simp [filterSlot, alookup, hj, hj2, ih]

theorem filterSlot_absent (i : Nat) (ct : ClassTalents) (h : alookup i ct = none) :
    filterSlot i ct = ct := by
  induction ct with
  | nil => rfl
  | cons p rest ih =>
      obtain ⟨j, slot⟩ := p
      by_cases hj : j = i
      · subst hj; simp [alookup] at h
      · simp [alookup, hj] at h
        simp [filterSlot, hj, ih h]

theorem remove_lookupClass_self (c : String) (i : Nat) (s : StoreMap) :
    lookupClass (remove_auto_generated c i s) c = (lookupClass s c).map (filterSlot i) := by
  induction s with
  | nil => simp [remove_auto_generated, lookupClass, alookup]
  | cons p rest ih =>
      obtain ⟨c2, ct⟩ := p
      by_cases h : c2 = c
      · subst h; simp [remove_auto_generated, lookupClass, alookup]
      · simpa [remove_auto_generated, lookupClass, alookup, h] using ih

theorem remove_lookupClass_other (c c2 : String) (i : Nat) (s : StoreMap) (h : c2 ≠ c) :
    lookupClass (remove_auto_generated c i s) c2 = lookupClass s c2 := by
  induction s with
  | nil => simp [remove_auto_generated]
  | cons p rest ih =>
      obtain ⟨c3, ct⟩ := p
      by_cases h3 : c3 = c
      · subst h3
        have : ¬ c3 = c2 := fun hh => h (hh.symm)
        simp [remove_auto_generated, lookupClass, alookup, this]
      · by_cases h32 : c3 = c2
        · subst h32
          simp [remove_auto_generated, lookupClass, alookup, h3]
        · simpa [remove_auto_generated, lookupClass, alookup, h3, h32] using ih

theorem remove_absent_class (c : String) (i : Nat) (s : StoreMap)
    (h : lookupClass s c = none) : remove_auto_generated c i s = s := by
  induction s with
  | nil => rfl
  | cons p rest ih =>
      obtain ⟨c2, ct⟩ := p
      by_cases h2 : c2 = c
      · subst h2; simp [lookupClass, alookup] at h
      · simp [lookupClass, alookup, h2] at h
        simp [remove_auto_generated, h2, ih h]

theorem remove_absent_slot (c : String) (i : Nat) (s : StoreMap)
    (h : lookupSlot s c i = none) : remove_auto_generated c i s = s := by
  induction s with
  | nil => rfl
  | cons p rest ih =>
      obtain ⟨c2, ct⟩ := p
      by_cases h2 : c2 = c
      · subst h2
        simp [lookupSlot, lookupClass, alookup] at h
        simp [remove_auto_generated, filterSlot_absent i ct h]
      · simp [lookupSlot, lookupClass, alookup, h2] at h
        have hr : lookupSlot rest c i = none := by
          cases hc : alookup c rest with
          | none => simp [lookupSlot, lookupClass, hc]
          | some a => simp [lookupSlot, lookupClass, hc, h a hc]
        simp [remove_auto_generated, h2, ih hr]

/-- C3: `remove_auto_generated(C, i)` removes exactly the machine-owned
entries of slot `(C, i)` (a filter, so the relative order of remaining
entries is preserved), leaves every other slot of every class unchanged,
and is a no-op when the class or the slot is absent. -/
theorem C3_scoped_clear :
    ∀ (s : StoreMap) (c : String) (i : Nat),
      lookupSlot (remove_auto_generated c i s) c i =
        (lookupSlot s c i).map (List.filter (fun t => ! t.is_auto_generated)) ∧
      (∀ c2 i2, ¬ (c2 = c ∧ i2 = i) →
        lookupSlot (remove_auto_generated c i s) c2 i2 = lookupSlot s c2 i2) ∧
      (lookupClass s c = none → remove_auto_generated c i s = s) ∧
      (lookupSlot s c i = none → remove_auto_generated c i s = s) := by
  intro s c i
  refine ⟨?_, ?_, remove_absent_class c i s, remove_absent_slot c i s⟩
  · rw [lookupSlot, remove_lookupClass_self]
    cases h : lookupClass s c with
    | none => simp [lookupSlot, h]
    | some ct => simp [lookupSlot, h, filterSlot_alookup_self]
  · intro c2 i2 hne
    by_cases hc : c2 = c
    · subst hc
      have hi : i2 ≠ i := fun hh => hne ⟨rfl, hh⟩
      rw [lookupSlot, remove_lookupClass_self]
      cases h : lookupClass s c2 with
      | none => simp [lookupSlot, h]
      | some ct => simp [lookupSlot, h, filterSlot_alookup_other i i2 ct hi]
    · rw [lookupSlot, remove_lookupClass_other c c2 i s hc, lookupSlot]

theorem C3_scoped_clear_witness :
    lookupSlot
        (remove_auto_generated ("A") 1
          [("A", [(1, [TalentLoadout.mk 0 ("R-heroic-sikran_ARCT") ("p"),
                       TalentLoadout.mk 0 ("My Build") ("q")]), (2, [TalentLoadout.mk 0 ("x") ("y")])]),
           ("B", [(1, [TalentLoadout.mk 0 ("z") ("w")])])])
        ("A") 1 =
      (lookupSlot
          [("A", [(1, [TalentLoadout.mk 0 ("R-heroic-sikran_ARCT") ("p"),
                       TalentLoadout.mk 0 ("My Build") ("q")]), (2, [TalentLoadout.mk 0 ("x") ("y")])]),
           ("B", [(1, [TalentLoadout.mk 0 ("z") ("w")])])]
          ("A") 1).map (List.filter (fun t => ! t.is_auto_generated)) ∧
    lookupSlot
        (remove_auto_generated ("A") 1
          [("A", [(1, [TalentLoadout.mk 0 ("R-heroic-sikran_ARCT") ("p"),
                       TalentLoadout.mk 0 ("My Build") ("q")]), (2, [TalentLoadout.mk 0 ("x") ("y")])]),
           ("B", [(1, [TalentLoadout.mk 0 ("z") ("w")])])])
        ("B") 1 =
      lookupSlot
        [("A", [(1, [TalentLoadout.mk 0 ("R-heroic-sikran_ARCT") ("p"),
                     TalentLoadout.mk 0 ("My Build") ("q")]), (2, [TalentLoadout.mk 0 ("x") ("y")])]),
         ("B", [(1, [TalentLoadout.mk 0 ("z") ("w")])])]
        ("B") 1 ∧
    remove_auto_generated ("C") 1 [("A", ([] : ClassTalents))] = [("A", ([] : ClassTalents))] ∧
    remove_auto_generated ("A") 5 [("A", [(1, [TalentLoadout.mk 0 ("n") ("t")])])] =
      [("A", [(1, [TalentLoadout.mk 0 ("n") ("t")])])] :=
  ⟨(C3_scoped_clear _ ("A") 1).1,
   (C3_scoped_clear _ ("A") 1).2.1 ("B") 1 (by decide),
   (C3_scoped_clear _ ("C") 1).2.2.1 (by decide),
   (C3_scoped_clear _ ("A") 5).2.2.2 (by decide)⟩

/-! ### Claim C8: structural mismatches skip one unit, only a document
parse failure is fatal -/

theorem classTalentsStep_skip (acc : ClassTalents) (f : LuaField) (h : ¬ slotShaped f) :
    classTalentsStep acc f = acc := by
  cases f with
  | noKey e => rfl
  | nameKey k v => rfl
  | exprKey k v =>
      cases k with
      | num tok =>
          cases hp : rustParseU8 tok with
          | none => simp [classTalentsStep, hp]
          | some n =>
              cases v with
              | table lf => exact absurd ⟨tok, n, lf, rfl, hp⟩ h
              | str s => simp [classTalentsStep, hp]
              | num s => simp [classTalentsStep, hp]
              | boolean b => simp [classTalentsStep, hp]
              | var s => simp [classTalentsStep, hp]
              | neg e => simp [classTalentsStep, hp]
      | str s => rfl
      | boolean b => rfl
      | var s => rfl
      | neg e => rfl
      | table lf => rfl

theorem talentTableStep_skip (acc : StoreMap) (f : LuaField) (h : ¬ classShaped f) :
    talentTableStep acc f = acc := by
  cases f with
  | noKey e => rfl
  | nameKey k v => rfl
  | exprKey k v =>
      cases k with
      | str tok =>
          cases v with
          | table lf => exact absurd ⟨tok, lf, rfl⟩ h
          | str s => simp [talentTableStep]
          | num s => simp [talentTableStep]
          | boolean b => simp [talentTableStep]
          | var s => simp [talentTableStep]
          | neg e => simp [talentTableStep]
      | num s => rfl
      | boolean b => rfl
      | var s => rfl
      | neg e => rfl
      | table lf => rfl

theorem parse_talent_list_skip (f : LuaField) (h : ¬ entryShaped f) (ys : List LuaField) :
    parse_talent_list (f :: ys) = parse_talent_list ys := by
  cases f with
  | noKey e =>
      cases e with
      | table lf => exact absurd ⟨lf, rfl⟩ h
      | str s => rfl
      | num s => rfl
      | boolean b => rfl
      | var s => rfl
      | neg e2 => rfl
  | exprKey k v => rfl
  | nameKey k v => rfl

/-- C8: a structural mismatch at the entry, slot or class level causes only
that one unit to be skipped while the rest still decodes, and decode
returns an error exactly when the whole document fails to parse. -/
theorem C8_structural_skip :
    (∀ content, (parse_lua content).isOk = false ↔ luaParse content = none) ∧
    (∀ f xs ys, ¬ entryShaped f →
        parse_talent_list (xs ++ f :: ys) = parse_talent_list (xs ++ ys)) ∧
    (∀ f xs ys, ¬ slotShaped f →
        parse_class_talents (xs ++ f :: ys) = parse_class_talents (xs ++ ys)) ∧
    (∀ f xs ys, ¬ classShaped f →
        parse_talent_table (xs ++ f :: ys) = parse_talent_table (xs ++ ys)) := by
  refine ⟨?_, ?_, ?_, ?_⟩
  · intro content
    cases h : luaParse content <;> simp [parse_lua, h, Except.isOk, Except.toBool]
  · intro f xs ys h
    induction xs with
    | nil => exact parse_talent_list_skip f h ys
    | cons x rest ih =>
        cases x with
        | noKey e => cases e <;> simp [parse_talent_list, ih]
        | exprKey k v => simp [parse_talent_list, ih]
        | nameKey k v => simp [parse_talent_list, ih]
  · intro f xs ys h
    unfold parse_class_talents
    rw [List.foldl_append, List.foldl_append, List.foldl_cons,
      classTalentsStep_skip _ f h]
  · intro f xs ys h
    unfold parse_talent_table
    rw [List.foldl_append, List.foldl_append, List.foldl_cons,
      talentTableStep_skip _ f h]

theorem C8_structural_skip_witness :
    ((parse_lua ("x = (")).isOk = false) ∧
    parse_talent_list
        [LuaField.noKey (LuaExpr.table []), LuaField.noKey (LuaExpr.str ("\"a\"")),
         LuaField.noKey (LuaExpr.table [])] =
      parse_talent_list [LuaField.noKey (LuaExpr.table []), LuaField.noKey (LuaExpr.table [])] ∧
    parse_class_talents [LuaField.nameKey ("x") (LuaExpr.table [])] = parse_class_talents [] ∧
    parse_talent_table [LuaField.noKey (LuaExpr.num ("1"))] = parse_talent_table [] :=
  ⟨(C8_structural_skip.1 ("x = (")).mpr (by with_unfolding_all rfl),
   C8_structural_skip.2.1 (LuaField.noKey (LuaExpr.str ("\"a\"")))
     [LuaField.noKey (LuaExpr.table [])] [LuaField.noKey (LuaExpr.table [])]
     (by rintro ⟨lf, hh⟩; simp at hh),
   C8_structural_skip.2.2.1 (LuaField.nameKey ("x") (LuaExpr.table [])) [] []
     (by rintro ⟨tok, n, lf, hh, hp⟩; simp at hh),
   C8_structural_skip.2.2.2 (LuaField.noKey (LuaExpr.num ("1"))) [] []
     (by rintro ⟨tok, lf, hh⟩; simp at hh)⟩

/-! ### Claim C6: deterministic encode ordering -/

theorem nodup_same_mem_perm {α : Type} [DecidableEq α] {l1 l2 : List α}
    (h1 : l1.Nodup) (h2 : l2.Nodup) (hm : ∀ a, a ∈ l1 ↔ a ∈ l2) : l1.Perm l2 := by
  rw [List.perm_iff_count]
  intro a
  by_cases ha : a ∈ l1
  · rw [List.count_eq_one_of_mem h1 ha, List.count_eq_one_of_mem h2 ((hm a).mp ha)]
  · rw [List.count_eq_zero_of_not_mem ha,
      List.count_eq_zero_of_not_mem (fun hh => ha ((hm a).mpr hh))]

theorem sort_eq_of_perm {α : Type} [LinearOrder α] {l1 l2 : List α} (hp : l1.Perm l2) :
    List.insertionSort (fun a b => a ≤ b) l1 = List.insertionSort (fun a b => a ≤ b) l2 :=
  List.eq_of_perm_of_sorted
    ((List.perm_insertionSort _ l1).trans (hp.trans (List.perm_insertionSort _ l2).symm))
    (List.sorted_insertionSort _ l1) (List.sorted_insertionSort _ l2)

theorem classBlock_congr (c : String) (b1 b2 : ClassTalents)
    (h1 : (b1.map Prod.fst).Nodup) (h2 : (b2.map Prod.fst).Nodup)
    (hl : ∀ i, alookup i b1 = alookup i b2) : classBlock c b1 = classBlock c b2 := by
  have hmem : ∀ i, i ∈ b1.map Prod.fst ↔ i ∈ b2.map Prod.fst := by
    intro i
    rw [← alookup_isSome_iff_mem, ← alookup_isSome_iff_mem, hl i]
  have hsort : sortedSpecIndices b1 = sortedSpecIndices b2 := by
    unfold sortedSpecIndices
    exact sort_eq_of_perm (nodup_same_mem_perm h1 h2 hmem)
  unfold classBlock
  rw [hsort]
  have hmap : ∀ i ∈ sortedSpecIndices b2,
      slotBlock i ((alookup i b1).getD []) = slotBlock i ((alookup i b2).getD []) := by
    intro i _
    rw [hl i]
  rw [List.map_congr_left hmap]

/-- C6: encode emits class keys in lexicographic order and specialization
keys in ascending order; consequently any two well-formed stores with
identical class-to-slot-to-entry contents encode to byte-identical
output, regardless of insertion order. -/
theorem C6_deterministic_encode :
    (∀ s : StoreMap, List.Sorted (fun a b => a ≤ b) (sortedClassNames s)) ∧
    (∀ ct : ClassTalents, List.Sorted (fun a b => a ≤ b) (sortedSpecIndices ct)) ∧
    ∀ s1 s2 : StoreMap, StoreWF s1 → StoreWF s2 → sameContents s1 s2 →
      to_lua_string s1 = to_lua_string s2 := by
  refine ⟨fun s => List.sorted_insertionSort _ _, fun ct => List.sorted_insertionSort _ _, ?_⟩
  intro s1 s2 hw1 hw2 hs
  have hmem : ∀ c, c ∈ s1.map Prod.fst ↔ c ∈ s2.map Prod.fst := by
    intro c
    rw [← alookup_isSome_iff_mem, ← alookup_isSome_iff_mem]
    have := hs.1 c
    simp only [lookupClass] at this
    rw [this]
  have hperm := nodup_same_mem_perm hw1.1 hw2.1 hmem
  have hsort : sortedClassNames s1 = sortedClassNames s2 := sort_eq_of_perm hperm
  unfold to_lua_string
  rw [hsort]
  have hmap : ∀ c ∈ sortedClassNames s2,
      classBlock c ((lookupClass s1 c).getD []) = classBlock c ((lookupClass s2 c).getD []) := by
    intro c hc
    have hc2 : c ∈ s2.map Prod.fst := (List.perm_insertionSort _ _).mem_iff.mp hc
    have hc1 : c ∈ s1.map Prod.fst := (hmem c).mpr hc2
    obtain ⟨b1, hb1⟩ : ∃ b, alookup c s1 = some b := by
      cases hx : alookup c s1 with
      | none => rw [← alookup_isSome_iff_mem, hx] at hc1; simp at hc1
      | some b => exact ⟨b, rfl⟩
    obtain ⟨b2, hb2⟩ : ∃ b, alookup c s2 = some b := by
      cases hx : alookup c s2 with
      | none => rw [← alookup_isSome_iff_mem, hx] at hc2; simp at hc2
      | some b => exact ⟨b, rfl⟩
    have hl : ∀ i, alookup i b1 = alookup i b2 := by
      intro i
      have := hs.2 c i
      simp only [lookupSlot, lookupClass, hb1, hb2, Option.bind_some] at this
      exact this
    have hn1 : (b1.map Prod.fst).Nodup := hw1.2 (c, b1) (alookup_eq_some_mem hb1)
    have hn2 : (b2.map Prod.fst).Nodup := hw2.2 (c, b2) (alookup_eq_some_mem hb2)
    simp only [lookupClass, hb1, hb2, Option.getD_some]
    exact classBlock_congr c b1 b2 hn1 hn2 hl
  rw [List.map_congr_left hmap]

theorem C6_deterministic_encode_witness :
    List.Sorted (fun a b => a ≤ b)
        (sortedClassNames [(("B" : String), ([] : ClassTalents)), ("A", [])]) ∧
    List.Sorted (fun a b => a ≤ b) (sortedSpecIndices [(2, []), (1, [])]) ∧
    to_lua_string (add_talent ("B") 1 (TalentLoadout.mk 0 ("x") ("y"))
        (add_talent ("A") 2 (TalentLoadout.mk 0 ("u") ("v")) [])) =
      to_lua_string (add_talent ("A") 2 (TalentLoadout.mk 0 ("u") ("v"))
        (add_talent ("B") 1 (TalentLoadout.mk 0 ("x") ("y")) [])) := by
  refine ⟨C6_deterministic_encode.1 _, C6_deterministic_encode.2.1 _, ?_⟩
  refine C6_deterministic_encode.2.2 _ _ ⟨by decide, by decide⟩ ⟨by decide, by decide⟩ ?_
  constructor
  · intro c
    by_cases hA : "A" = c <;> by_cases hB : "B" = c <;>
      simp [add_talent, pushSlot, lookupClass, alookup, hA, hB]
  · intro c i
    by_cases hA : "A" = c
    · by_cases hB : "B" = c
      · exact absurd (hA.trans hB.symm) (by decide)
      · simp [add_talent, pushSlot, lookupSlot, lookupClass, alookup, hA, hB]
    · by_cases hB : "B" = c <;>
        simp [add_talent, pushSlot, lookupSlot, lookupClass, alookup, hA, hB]

/-! ### Orchestrator event lemmas (shared by the failure-semantics and
icon-invariant claims) -/

theorem bif_true {α : Sort _} {c : Bool} (h : c = true) (a b : α) :
    (if c = true then a else b) = a := if_pos h

theorem bif_false {α : Sort _} {c : Bool} (h : c = false) (a b : α) :
    (if c = true then a else b) = b := if_neg (by simp [h])

theorem okEvent_fetched (u : String) : okEvent (Event.fetched u) :=
  ⟨fun _ h => Event.noConfusion h, fun _ _ _ h => Event.noConfusion h⟩

theorem okEvent_added_new (c : String) (i : Nat) (n s : String) :
    okEvent (Event.added c i (TalentLoadout.new n s)) := by
  refine ⟨fun _ h => Event.noConfusion h, fun c2 i2 t2 h => ?_⟩
  injection h with h1 h2 h3
  rw [← h3]
  rfl

theorem raidDiffLoop_events (f : FetchFn) (wc : WowClass) (spec : String) (si : Nat)
    (boss : String) :
    ∀ ds tm, ∀ e ∈ (raidDiffLoop f wc spec si boss ds tm).1, okEvent e := by
  intro ds
  induction ds with
  | nil => intro tm e he; simp [raidDiffLoop] at he
  | cons d ds ih =>
      intro tm e he
      unfold raidDiffLoop at he
      cases hd : RaidDifficulty.from_str d with
      | none => rw [hd] at he; simp at he
      | some difficulty =>
          rw [hd] at he
          simp only at he
          cases hf : f (build_raid_url wc spec difficulty boss) with
          | error err =>
              rw [hf] at he
              simp at he
              rw [he]
              exact okEvent_fetched _
          | ok o =>
              cases o with
              | some ts =>
                  rw [hf] at he
                  simp at he
                  rcases he with he | he | he
                  · rw [he]; exact okEvent_fetched _
                  · rw [he]; exact okEvent_added_new _ _ _ _
                  · exact ih _ e he
              | none =>
                  rw [hf] at he
                  simp at he
                  rcases he with he | he
                  · rw [he]; exact okEvent_fetched _
                  · exact ih _ e he

theorem raidBossLoop_events (f : FetchFn) (cfg : Config) (wc : WowClass) (spec : String)
    (si : Nat) :
    ∀ bs tm, ∀ e ∈ (raidBossLoop f cfg wc spec si bs tm).1, okEvent e := by
  intro bs
  induction bs with
  | nil => intro tm e he; simp [raidBossLoop] at he
  | cons boss bs ih =>
      intro tm e he
      unfold raidBossLoop at he
      simp only at he
      cases hr : (raidDiffLoop f wc spec si boss cfg.raid_difficulties tm).2 with
      | error err =>
          rw [hr] at he
          simp at he
          exact raidDiffLoop_events f wc spec si boss _ tm e he
      | ok p =>
          obtain ⟨tm2, n⟩ := p
          rw [hr] at he
          simp at he
          rcases he with he | he
          · exact raidDiffLoop_events f wc spec si boss _ tm e he
          · exact ih tm2 e he

theorem mpDungeonLoop_events (f : FetchFn) (w : Weekday) (wc : WowClass) (spec : String)
    (si : Nat) :
    ∀ ds tm, ∀ e ∈ (mpDungeonLoop f w wc spec si ds tm).1, okEvent e := by
  intro ds
  induction ds with
  | nil => intro tm e he; simp [mpDungeonLoop] at he
  | cons dungeon ds ih =>
      intro tm e he
      unfold mpDungeonLoop at he
      simp only at he
      cases hf : f (build_mythic_plus_url wc spec dungeon
          (MythicPlusTimespan.primary_for_today w)) with
      | error err =>
          rw [hf] at he
          simp at he
          rw [he]
          exact okEvent_fetched _
      | ok o =>
          cases o with
          | some ts =>
              rw [hf] at he
              simp at he
              rcases he with he | he | he
              · rw [he]; exact okEvent_fetched _
              · rw [he]; exact okEvent_added_new _ _ _ _
              · exact ih _ e he
          | none =>
              rw [hf] at he
              simp only at he
              cases hf2 : f (build_mythic_plus_url wc spec dungeon
                  (MythicPlusTimespan.primary_for_today w).fallback) with
              | error err =>
                  rw [hf2] at he
                  simp at he
                  rcases he with he | he <;> (rw [he]; exact okEvent_fetched _)
              | ok o2 =>
                  cases o2 with
                  | some ts =>
                      rw [hf2] at he
                      simp at he
                      rcases he with he | he | he | he
                      · rw [he]; exact okEvent_fetched _
                      · rw [he]; exact okEvent_fetched _
                      · rw [he]; exact okEvent_added_new _ _ _ _
                      · exact ih _ e he
                  | none =>
                      rw [hf2] at he
                      simp at he
                      rcases he with he | he | he
                      · rw [he]; exact okEvent_fetched _
                      · rw [he]; exact okEvent_fetched _
                      · exact ih _ e he

theorem specLoop_events (f : FetchFn) (w : Weekday) (cfg : Config) (wc : WowClass)
    (clsStr : String) :
    ∀ specs tm, ∀ e ∈ (specLoop f w cfg wc clsStr specs tm).1, okEvent e := by
  intro specs
  induction specs with
  | nil => intro tm e he; simp [specLoop] at he
  | cons spec rest ih =>
      intro tm e he
      unfold specLoop at he
      cases hsi : wc.spec_index spec with
      | none => rw [hsi] at he; simp at he
      | some si =>
          rw [hsi] at he
          simp only at he
          set tm1 := if ! cfg.clear_previous_builds then
              remove_auto_generated (wc.to_lua_format) si tm else tm with htm1
          cases hc1 : (! cfg.raid_bosses.isEmpty && ! cfg.raid_difficulties.isEmpty)
          case false =>
            rw [bif_false hc1] at he
            dsimp only at he
            cases hc2 : (! cfg.dungeons.isEmpty)
            case false =>
              rw [bif_false hc2] at he
              simp at he
              exact ih _ e he
            case true =>
              rw [bif_true hc2] at he
              cases hm : (fetch_mythic_plus_builds f w cfg wc spec si tm1).2 with
              | error err =>
                  rw [hm] at he
                  simp at he
                  exact mpDungeonLoop_events f w wc spec si _ tm1 e he
              | ok q =>
                  obtain ⟨tm3, mn⟩ := q
                  rw [hm] at he
                  simp at he
                  rcases he with he | he
                  · exact mpDungeonLoop_events f w wc spec si _ tm1 e he
                  · exact ih tm3 e he
          case true =>
            rw [bif_true hc1] at he
            cases hr : (fetch_raid_builds f cfg wc spec si tm1).2 with
            | error err =>
                rw [hr] at he
                simp at he
                exact raidBossLoop_events f cfg wc spec si _ tm1 e he
            | ok p =>
                obtain ⟨tm2, rn⟩ := p
                rw [hr] at he
                dsimp only at he
                cases hc2 : (! cfg.dungeons.isEmpty)
                case false =>
                  rw [bif_false hc2] at he
                  simp at he
                  rcases he with he | he
                  · exact raidBossLoop_events f cfg wc spec si _ tm1 e he
                  · exact ih tm2 e he
                case true =>
                  rw [bif_true hc2] at he
                  cases hm : (fetch_mythic_plus_builds f w cfg wc spec si tm2).2 with
                  | error err =>
                      rw [hm] at he
                      simp at he
                      rcases he with he | he
                      · exact raidBossLoop_events f cfg wc spec si _ tm1 e he
                      · exact mpDungeonLoop_events f w wc spec si _ tm2 e he
                  | ok q =>
                      obtain ⟨tm3, mn⟩ := q
                      rw [hm] at he
                      simp at he
                      rcases he with he | he | he
                      · exact raidBossLoop_events f cfg wc spec si _ tm1 e he
                      · exact mpDungeonLoop_events f w wc spec si _ tm2 e he
                      · exact ih tm3 e he

theorem charLoop_events (f : FetchFn) (w : Weekday) (cfg : Config) :
    ∀ chars tm, ∀ e ∈ (charLoop f w cfg chars tm).1, okEvent e := by
  intro chars
  induction chars with
  | nil => intro tm e he; simp [charLoop] at he
  | cons ch rest ih =>
      intro tm e he
      unfold charLoop at he
      cases hwc : WowClass.from_str ch.className with
      | none => rw [hwc] at he; simp at he
      | some wc =>
          rw [hwc] at he
          simp only at he
          cases hr : (specLoop f w cfg wc ch.className ch.specializations tm).2 with
          | error err =>
              rw [hr] at he
              simp at he
              exact specLoop_events f w cfg wc ch.className _ tm e he
          | ok p =>
              obtain ⟨tm2, rn, mn⟩ := p
              rw [hr] at he
              simp at he
              rcases he with he | he
              · exact specLoop_events f w cfg wc ch.className _ tm e he
              · exact ih tm2 e he

/-! ### Claim C2: failures abort before any write -/

/-- C2: whenever a run fails with an error — malformed existing store on
load, unknown class, unknown specialization, unknown raid difficulty, or a
propagated transport error — no write event has been emitted, so the
previously persisted file is untouched. -/
theorem C2_no_write_on_error :
    ∀ (f : FetchFn) (w : Weekday) (cfg : Config) (fileContents : Option String)
      (err content : String),
      (run f w cfg fileContents).2 = Except.error err →
      Event.wrote content ∉ (run f w cfg fileContents).1 := by
  intro f w cfg fc err content herr hmem
  unfold run at herr hmem
  rcases fc with _ | content2
  · dsimp only at herr hmem
    cases hr : (charLoop f w cfg cfg.characters
        (if cfg.clear_previous_builds then remove_all_auto_generated [] else [])).2 with
    | error e2 =>
        rw [hr] at hmem
        exact (charLoop_events f w cfg _ _ (Event.wrote content) hmem).1 content rfl
    | ok p =>
        obtain ⟨tmF, rn, mn⟩ := p
        rw [hr] at herr
        simp at herr
  · dsimp only at herr hmem
    cases hp : parse_lua content2 with
    | error e2 =>
        rw [hp] at hmem
        simp at hmem
    | ok tm =>
        rw [hp] at herr hmem
        dsimp only at herr hmem
        cases hr : (charLoop f w cfg cfg.characters
            (if cfg.clear_previous_builds then remove_all_auto_generated tm else tm)).2 with
        | error e2 =>
            rw [hr] at hmem
            exact (charLoop_events f w cfg _ _ (Event.wrote content) hmem).1 content rfl
        | ok p =>
            obtain ⟨tmF, rn, mn⟩ := p
            rw [hr] at herr
            simp at herr

theorem C2_no_write_on_error_witness :
    (run (fun _ => Except.ok none) Weekday.thu
        { characters := [{ name := "n", className := "Xyz", specializations := ["arms"] }],
          raid_difficulties := [], raid_bosses := [], dungeons := [],
          clear_previous_builds := false } none).2 = Except.error ("Invalid class: Xyz") ∧
    Event.wrote ("TalentLoadoutEx") ∉
      (run (fun _ => Except.ok none) Weekday.thu
        { characters := [{ name := "n", className := "Xyz", specializations := ["arms"] }],
          raid_difficulties := [], raid_bosses := [], dungeons := [],
          clear_previous_builds := false } none).1 :=
  ⟨by with_unfolding_all rfl,
   C2_no_write_on_error _ _ _ _ ("Invalid class: Xyz") ("TalentLoadoutEx")
     (by with_unfolding_all rfl)⟩

/-! ### Claim C10: every entry added by a run has icon 0 -/

/-- C10: every entry the orchestrator adds to the store during a run — raid
or dungeon — is built by `TalentLoadout::new` and therefore carries
`icon = 0`. -/
theorem C10_added_icon_zero :
    ∀ (f : FetchFn) (w : Weekday) (cfg : Config) (fileContents : Option String)
      (c : String) (i : Nat) (t : TalentLoadout),
      Event.added c i t ∈ (run f w cfg fileContents).1 → t.icon = 0 := by
  intro f w cfg fc c i t hmem
  unfold run at hmem
  rcases fc with _ | content2
  · dsimp only at hmem
    cases hr : (charLoop f w cfg cfg.characters
        (if cfg.clear_previous_builds then remove_all_auto_generated [] else [])).2 with
    | error e2 =>
        rw [hr] at hmem
        exact (charLoop_events f w cfg _ _ (Event.added c i t) hmem).2 c i t rfl
    | ok p =>
        obtain ⟨tmF, rn, mn⟩ := p
        rw [hr] at hmem
        simp at hmem
        exact (charLoop_events f w cfg _ _ (Event.added c i t) hmem).2 c i t rfl
  · dsimp only at hmem
    cases hp : parse_lua content2 with
    | error e2 =>
        rw [hp] at hmem
        simp at hmem
    | ok tm =>
        rw [hp] at hmem
        dsimp only at hmem
        cases hr : (charLoop f w cfg cfg.characters
            (if cfg.clear_previous_builds then remove_all_auto_generated tm else tm)).2 with
        | error e2 =>
            rw [hr] at hmem
            exact (charLoop_events f w cfg _ _ (Event.added c i t) hmem).2 c i t rfl
        | ok p =>
            obtain ⟨tmF, rn, mn⟩ := p
            rw [hr] at hmem
            simp at hmem
            exact (charLoop_events f w cfg _ _ (Event.added c i t) hmem).2 c i t rfl

theorem C10_added_icon_zero_witness :
    (TalentLoadout.new ("M+-ara-kara_ARCT") ("warrior/arms/XYZ")).icon = 0 :=
  C10_added_icon_zero (fun _ => Except.ok (some ("warrior/arms/XYZ"))) Weekday.thu
    { characters := [{ name := "n", className := "Warrior", specializations := ["arms"] }],
      raid_difficulties := [], raid_bosses := [], dungeons := ["ara-kara"],
      clear_previous_builds := false } none ("WARRIOR") 1
    (TalentLoadout.new ("M+-ara-kara_ARCT") ("warrior/arms/XYZ"))
    (by with_unfolding_all decide)

/-! ### Claim C4: primary/fallback time-window policy -/

/-- Sequencing the dungeon loop over a split of the configured dungeon
list: the loop processes the first segment and, unless that segment
aborted with a transport error, continues over the second segment from the
accumulated store, concatenating the event traces and adding the entry
counts.  This is how the loop reaches each configured dungeon in turn. -/
theorem mpDungeonLoop_append (f : FetchFn) (w : Weekday) (wc : WowClass) (spec : String)
    (si : Nat) : ∀ (ds1 ds2 : List String) (tm : StoreMap),
    mpDungeonLoop f w wc spec si (ds1 ++ ds2) tm =
      ((mpDungeonLoop f w wc spec si ds1 tm).1 ++
         (match (mpDungeonLoop f w wc spec si ds1 tm).2 with
          | Except.error _ => []
          | Except.ok (tm1, _) => (mpDungeonLoop f w wc spec si ds2 tm1).1),
       match (mpDungeonLoop f w wc spec si ds1 tm).2 with
       | Except.error e => Except.error e
       | Except.ok (tm1, n) =>
           match (mpDungeonLoop f w wc spec si ds2 tm1).2 with
           | Except.error e => Except.error e
           | Except.ok (tm2, m) => Except.ok (tm2, n + m)) := by
  intro ds1
  induction ds1 with
  | nil =>
      intro ds2 tm
      simp only [List.nil_append, mpDungeonLoop]
      cases hr : mpDungeonLoop f w wc spec si ds2 tm with
      | mk ev2 r2 =>
          cases r2 with
          | error e => simp
          | ok p =>
              obtain ⟨tm2, m⟩ := p
              simp
  | cons d ds1 ih =>
      intro ds2 tm
      simp only [List.cons_append]
      cases hfu : f (build_mythic_plus_url wc spec d (MythicPlusTimespan.primary_for_today w)) with
      | error e =>
          simp [mpDungeonLoop, hfu]
      | ok o =>
          cases o with
          | some payload =>
              simp only [mpDungeonLoop, hfu]
              rw [ih]
              cases hr1 : mpDungeonLoop f w wc spec si ds1
                  (add_talent (wc.to_lua_format) si
                    (TalentLoadout.new ((TalentIdentifier.MythicPlus d).as_talent_name) payload)
                    tm) with
              | mk ev1 r1 =>
                  cases r1 with
                  | error e2 => simp
                  | ok p =>
                      obtain ⟨tm1, n⟩ := p
                      cases hr2 : mpDungeonLoop f w wc spec si ds2 tm1 with
                      | mk ev2 r2 =>
                          cases r2 with
                          | error e2 => simp [hr2]
                          | ok q =>
                              obtain ⟨tm2, m⟩ := q
                              simp [hr2, Nat.add_right_comm]
          | none =>
              cases hff : f (build_mythic_plus_url wc spec d
                  (MythicPlusTimespan.primary_for_today w).fallback) with
              | error e =>
                  simp [mpDungeonLoop, hfu, hff]
              | ok o2 =>
                  cases o2 with
                  | some payload =>
                      simp only [mpDungeonLoop, hfu, hff]
                      rw [ih]
                      cases hr1 : mpDungeonLoop f w wc spec si ds1
                          (add_talent (wc.to_lua_format) si
                            (TalentLoadout.new
                              ((TalentIdentifier.MythicPlus d).as_talent_name) payload)
                            tm) with
                      | mk ev1 r1 =>
                          cases r1 with
                          | error e2 => simp
                          | ok p =>
                              obtain ⟨tm1, n⟩ := p
                              cases hr2 : mpDungeonLoop f w wc spec si ds2 tm1 with
                              | mk ev2 r2 =>
                                  cases r2 with
                                  | error e2 => simp [hr2]
                                  | ok q =>
                                      obtain ⟨tm2, m⟩ := q
                                      simp [hr2, Nat.add_right_comm]
                  | none =>
                      simp only [mpDungeonLoop, hfu, hff]
                      rw [ih]
                      simp

/-- C4: the primary window is last-week on Wednesday and this-week on
every other day, and the fallback is always the opposite window; the
dungeon loop reaches each configured dungeon — over any split of the
configured dungeon list it processes the first segment and, unless that
segment aborted, continues from the accumulated store; and per dungeon,
at any position in the remaining work and over any accumulated store, the
Build Source is queried with the primary window first, the fallback
window is queried exactly when the primary lookup returns not-found —
including the case where the fallback itself then returns not-found, in
which case no entry is added for that dungeon — and a not-found primary
with a found fallback adds exactly one dungeon entry carrying the
fallback lookup payload. -/
theorem C4_fallback_timing :
    MythicPlusTimespan.primary_for_today Weekday.wed = MythicPlusTimespan.LastWeek ∧
    (∀ w, w ≠ Weekday.wed →
      MythicPlusTimespan.primary_for_today w = MythicPlusTimespan.ThisWeek) ∧
    MythicPlusTimespan.fallback MythicPlusTimespan.ThisWeek = MythicPlusTimespan.LastWeek ∧
    MythicPlusTimespan.fallback MythicPlusTimespan.LastWeek = MythicPlusTimespan.ThisWeek ∧
    (∀ (f : FetchFn) (w : Weekday) (cfg : Config) (wc : WowClass) (spec : String)
       (si : Nat) (tm : StoreMap) (ds1 ds2 : List String),
      cfg.dungeons = ds1 ++ ds2 →
      (∀ ev1 e, mpDungeonLoop f w wc spec si ds1 tm = (ev1, Except.error e) →
        fetch_mythic_plus_builds f w cfg wc spec si tm = (ev1, Except.error e)) ∧
      (∀ ev1 tm1 n, mpDungeonLoop f w wc spec si ds1 tm = (ev1, Except.ok (tm1, n)) →
        fetch_mythic_plus_builds f w cfg wc spec si tm =
          (ev1 ++ (mpDungeonLoop f w wc spec si ds2 tm1).1,
           match (mpDungeonLoop f w wc spec si ds2 tm1).2 with
           | Except.error e => Except.error e
           | Except.ok (tm2, m) => Except.ok (tm2, n + m)))) ∧
    ∀ (f : FetchFn) (w : Weekday) (wc : WowClass) (spec dungeon : String) (si : Nat)
      (ds : List String) (tm : StoreMap),
      (mpDungeonLoop f w wc spec si (dungeon :: ds) tm).1.head? =
        some (Event.fetched (build_mythic_plus_url wc spec dungeon
          (MythicPlusTimespan.primary_for_today w))) ∧
      (∀ payload,
        f (build_mythic_plus_url wc spec dungeon (MythicPlusTimespan.primary_for_today w)) =
          Except.ok (some payload) →
        mpDungeonLoop f w wc spec si (dungeon :: ds) tm =
          (Event.fetched (build_mythic_plus_url wc spec dungeon
              (MythicPlusTimespan.primary_for_today w)) ::
            Event.added (wc.to_lua_format) si
              (TalentLoadout.new ((TalentIdentifier.MythicPlus dungeon).as_talent_name)
                payload) ::
            (mpDungeonLoop f w wc spec si ds
              (add_talent (wc.to_lua_format) si
                (TalentLoadout.new ((TalentIdentifier.MythicPlus dungeon).as_talent_name)
                  payload) tm)).1,
           match
             (mpDungeonLoop f w wc spec si ds
               (add_talent (wc.to_lua_format) si
                 (TalentLoadout.new ((TalentIdentifier.MythicPlus dungeon).as_talent_name)
                   payload) tm)).2 with
           | Except.error e => Except.error e
           | Except.ok (tm3, n) => Except.ok (tm3, n + 1))) ∧
      (∀ payload,
        f (build_mythic_plus_url wc spec dungeon (MythicPlusTimespan.primary_for_today w)) =
          Except.ok none →
        f (build_mythic_plus_url wc spec dungeon
            (MythicPlusTimespan.primary_for_today w).fallback) = Except.ok (some payload) →
        mpDungeonLoop f w wc spec si (dungeon :: ds) tm =
          (Event.fetched (build_mythic_plus_url wc spec dungeon
              (MythicPlusTimespan.primary_for_today w)) ::
            Event.fetched (build_mythic_plus_url wc spec dungeon
              (MythicPlusTimespan.primary_for_today w).fallback) ::
            Event.added (wc.to_lua_format) si
              (TalentLoadout.new ((TalentIdentifier.MythicPlus dungeon).as_talent_name)
                payload) ::
            (mpDungeonLoop f w wc spec si ds
              (add_talent (wc.to_lua_format) si
                (TalentLoadout.new ((TalentIdentifier.MythicPlus dungeon).as_talent_name)
                  payload) tm)).1,
           match
             (mpDungeonLoop f w wc spec si ds
               (add_talent (wc.to_lua_format) si
                 (TalentLoadout.new ((TalentIdentifier.MythicPlus dungeon).as_talent_name)
                   payload) tm)).2 with
           | Except.error e => Except.error e
           | Except.ok (tm3, n) => Except.ok (tm3, n + 1))) ∧
      (f (build_mythic_plus_url wc spec dungeon (MythicPlusTimespan.primary_for_today w)) =
          Except.ok none →
        f (build_mythic_plus_url wc spec dungeon
            (MythicPlusTimespan.primary_for_today w).fallback) = Except.ok none →
        mpDungeonLoop f w wc spec si (dungeon :: ds) tm =
          (Event.fetched (build_mythic_plus_url wc spec dungeon
              (MythicPlusTimespan.primary_for_today w)) ::
            Event.fetched (build_mythic_plus_url wc spec dungeon
              (MythicPlusTimespan.primary_for_today w).fallback) ::
            (mpDungeonLoop f w wc spec si ds tm).1,
           (mpDungeonLoop f w wc spec si ds tm).2)) ∧
      (∀ e, f (build_mythic_plus_url wc spec dungeon
          (MythicPlusTimespan.primary_for_today w)) = Except.error e →
        mpDungeonLoop f w wc spec si (dungeon :: ds) tm =
          ([Event.fetched (build_mythic_plus_url wc spec dungeon
              (MythicPlusTimespan.primary_for_today w))], Except.error e)) := by
  refine ⟨rfl, ?_, rfl, rfl, ?_, ?_⟩
  · intro w hw
    cases w <;> first | rfl | exact absurd rfl hw
  · intro f w cfg wc spec si tm ds1 ds2 hd
    constructor
    · intro ev1 e h1
      unfold fetch_mythic_plus_builds
      rw [hd, mpDungeonLoop_append, h1]
      simp
    · intro ev1 tm1 n h1
      unfold fetch_mythic_plus_builds
      rw [hd, mpDungeonLoop_append, h1]
  · intro f w wc spec dungeon si ds tm
    refine ⟨?_, ?_, ?_, ?_, ?_⟩
    · cases hfu : f (build_mythic_plus_url wc spec dungeon
          (MythicPlusTimespan.primary_for_today w)) with
      | error e => simp [mpDungeonLoop, hfu]
      | ok o =>
          cases o with
          | some payload => simp [mpDungeonLoop, hfu]
          | none =>
              cases hff : f (build_mythic_plus_url wc spec dungeon
                  (MythicPlusTimespan.primary_for_today w).fallback) with
              | error e => simp [mpDungeonLoop, hfu, hff]
              | ok o2 => cases o2 <;> simp [mpDungeonLoop, hfu, hff]
    · intro payload h1
      simp [mpDungeonLoop, h1]
    · intro payload h1 h2
      simp [mpDungeonLoop, h1, h2]
    · intro h1 h2
      simp [mpDungeonLoop, h1, h2]
    · intro e h1
      simp [mpDungeonLoop, h1]

/-- C4 witness: on a Thursday with two configured dungeons, the first
dungeon is found in the primary (this-week) window and adds one entry with
the primary payload, the second dungeon is not-found in both windows, is
retried exactly once with the fallback window, and adds nothing; the whole
two-dungeon fetch produces exactly this trace and count. -/
theorem C4_fallback_timing_witness :
    MythicPlusTimespan.primary_for_today Weekday.wed = MythicPlusTimespan.LastWeek ∧
    MythicPlusTimespan.primary_for_today Weekday.thu = MythicPlusTimespan.ThisWeek ∧
    fetch_mythic_plus_builds
        (fun url =>
          if url = build_mythic_plus_url WowClass.Warrior ("protection") ("dawnbreaker")
              (MythicPlusTimespan.primary_for_today Weekday.thu) then Except.ok none
          else if url = build_mythic_plus_url WowClass.Warrior ("protection") ("dawnbreaker")
              (MythicPlusTimespan.primary_for_today Weekday.thu).fallback then Except.ok none
          else Except.ok (some ("P")))
        Weekday.thu
        { characters := [], raid_difficulties := [], raid_bosses := [],
          dungeons := [("ara-kara"), ("dawnbreaker")], clear_previous_builds := false }
        WowClass.Warrior ("protection") 3 [] =
      ([Event.fetched (build_mythic_plus_url WowClass.Warrior ("protection") ("ara-kara")
          (MythicPlusTimespan.primary_for_today Weekday.thu)),
        Event.added ("WARRIOR") 3
          (TalentLoadout.new ((TalentIdentifier.MythicPlus ("ara-kara")).as_talent_name) ("P")),
        Event.fetched (build_mythic_plus_url WowClass.Warrior ("protection") ("dawnbreaker")
          (MythicPlusTimespan.primary_for_today Weekday.thu)),
        Event.fetched (build_mythic_plus_url WowClass.Warrior ("protection") ("dawnbreaker")
          (MythicPlusTimespan.primary_for_today Weekday.thu).fallback)],
       Except.ok (add_talent ("WARRIOR") 3
         (TalentLoadout.new ((TalentIdentifier.MythicPlus ("ara-kara")).as_talent_name) ("P"))
         [], 1)) ∧
    mpDungeonLoop
        (fun url =>
          if url = build_mythic_plus_url WowClass.Warrior ("protection") ("dawnbreaker")
              (MythicPlusTimespan.primary_for_today Weekday.thu) then Except.ok none
          else if url = build_mythic_plus_url WowClass.Warrior ("protection") ("dawnbreaker")
              (MythicPlusTimespan.primary_for_today Weekday.thu).fallback then Except.ok none
          else Except.ok (some ("P")))
        Weekday.thu WowClass.Warrior ("protection") 3 [("dawnbreaker")]
        (add_talent ("WARRIOR") 3
          (TalentLoadout.new ((TalentIdentifier.MythicPlus ("ara-kara")).as_talent_name) ("P"))
          []) =
      ([Event.fetched (build_mythic_plus_url WowClass.Warrior ("protection") ("dawnbreaker")
          (MythicPlusTimespan.primary_for_today Weekday.thu)),
        Event.fetched (build_mythic_plus_url WowClass.Warrior ("protection") ("dawnbreaker")
          (MythicPlusTimespan.primary_for_today Weekday.thu).fallback)],
       Except.ok (add_talent ("WARRIOR") 3
         (TalentLoadout.new ((TalentIdentifier.MythicPlus ("ara-kara")).as_talent_name) ("P"))
         [], 0)) := by
  refine ⟨C4_fallback_timing.1, C4_fallback_timing.2.1 Weekday.thu (by decide), ?_, ?_⟩
  · exact ((C4_fallback_timing.2.2.2.2.1 _ _ _ _ _ _ _ [("ara-kara")] [("dawnbreaker")]
      rfl).2 _ _ 1 (by with_unfolding_all rfl)).trans (by with_unfolding_all rfl)
  · exact ((C4_fallback_timing.2.2.2.2.2 _ _ _ _ _ _ _ _).2.2.2.1
      (by with_unfolding_all rfl) (by with_unfolding_all rfl)).trans
      (by with_unfolding_all rfl)


/-! C1 value lemmas -/

theorem digitVal_digitChar (d : Nat) (h : d < 10) : digitVal (digitChar d) = d := by
  interval_cases d <;> decide

theorem isDigitChar_digitChar (d : Nat) (h : d < 10) : isDigitChar (digitChar d) = true := by
  interval_cases d <;> decide

theorem digitsToNat_append (xs : List Char) (c : Char) :
    digitsToNat (xs ++ [c]) = digitsToNat xs * 10 + digitVal c := by
  simp [digitsToNat, List.foldl_append]

theorem natReprAux_spec : ∀ fuel n, n < fuel →
    (∀ c ∈ natReprAux fuel n, isDigitChar c = true) ∧
    digitsToNat (natReprAux fuel n) = n ∧ natReprAux fuel n ≠ [] := by
  intro fuel
  induction fuel with
  | zero => intro n h; omega
  | succ fuel ih =>
      intro n h
      by_cases h10 : n < 10
      · refine ⟨?_, ?_, ?_⟩
        · intro c hc
          simp [natReprAux, h10] at hc
          rw [hc]
          exact isDigitChar_digitChar n h10
        · simp [natReprAux, h10, digitsToNat, digitVal_digitChar n h10]
        · simp [natReprAux, h10]
      · have hpos : 0 < n := by omega
        have hdiv : n / 10 < fuel := by
          have := Nat.div_lt_self hpos (show 1 < 10 by omega)
          omega
        obtain ⟨ihd, ihv, ihne⟩ := ih (n / 10) hdiv
        have hrw : natReprAux (fuel + 1) n = natReprAux fuel (n / 10) ++ [digitChar (n % 10)] := by
          simp [natReprAux, h10]
        rw [hrw]
        refine ⟨?_, ?_, ?_⟩
        · intro c hc
          rcases List.mem_append.mp hc with hc | hc
          · exact ihd c hc
          · simp at hc
            rw [hc]
            exact isDigitChar_digitChar _ (Nat.mod_lt _ (by omega))
        · rw [digitsToNat_append, ihv, digitVal_digitChar _ (Nat.mod_lt _ (by omega))]
          omega
        · simp

theorem natReprChars_spec (n : Nat) :
    (∀ c ∈ natReprChars n, isDigitChar c = true) ∧
    digitsToNat (natReprChars n) = n ∧ natReprChars n ≠ [] :=
  natReprAux_spec (n + 1) n (by omega)

theorem parseDigitsBelow_natRepr (n bound : Nat) (h : n < bound) :
    parseDigitsBelow (natReprChars n) bound = some n := by
  obtain ⟨hd, hv, hne⟩ := natReprChars_spec n
  unfold parseDigitsBelow
  rw [if_pos ⟨hne, List.all_eq_true.mpr hd, by rw [hv]; exact h⟩, hv]

theorem rustParseU8_natRepr (i : Nat) (h : i < 256) : rustParseU8 (natRepr i) = some i := by
  obtain ⟨hd, hv, hne⟩ := natReprChars_spec i
  unfold rustParseU8 natRepr
  cases hl : natReprChars i with
  | nil => exact absurd hl hne
  | cons c cs =>
      have hc : isDigitChar c = true := hd c (by rw [hl]; exact List.mem_cons_self _ _)
      have hplus : ¬ c = '+' := by
        intro hh
        rw [hh] at hc
        exact absurd hc (by decide)
      dsimp only
      rw [if_neg hplus]
      rw [← hl]
      exact parseDigitsBelow_natRepr i 256 h

theorem rustParseI64_intRepr (x : Int) (h0 : 0 ≤ x) (h1 : x < 2 ^ 63) :
    rustParseI64 (intRepr x) = some x := by
  obtain ⟨hd, hv, hne⟩ := natReprChars_spec x.toNat
  have hlt : ¬ x < 0 := by omega
  have hrepr : intRepr x = natRepr x.toNat := by
    unfold intRepr
    rw [if_neg hlt]
  rw [hrepr]
  unfold rustParseI64 natRepr
  cases hl : natReprChars x.toNat with
  | nil => exact absurd hl hne
  | cons c cs =>
      have hc : isDigitChar c = true := hd c (by rw [hl]; exact List.mem_cons_self _ _)
      have hminus : ¬ c = '-' := by
        intro hh
        rw [hh] at hc
        exact absurd hc (by decide)
      have hplus : ¬ c = '+' := by
        intro hh
        rw [hh] at hc
        exact absurd hc (by decide)
      dsimp only
      rw [if_neg hminus]
      rw [if_neg hplus]
      rw [← hl]
      have hbound : x.toNat < 2 ^ 63 := by omega
      rw [parseDigitsBelow_natRepr x.toNat (2 ^ 63) hbound]
      simp [Int.toNat_of_nonneg h0]

theorem goodChar_spec (c : Char) (h : goodChar c = true) :
    c ≠ '\"' ∧ c ≠ '\\' ∧ c ≠ '\n' ∧ c ≠ '\r' := by
  simp [goodChar] at h
  exact ⟨h.1.1.1, h.1.1.2, h.1.2, h.2⟩

theorem dropWhile_quote_of_good (l : List Char) (h : ∀ c ∈ l, goodChar c = true) :
    l.dropWhile (fun c => c = '\"') = l := by
  cases l with
  | nil => rfl
  | cons c cs =>
      have hc : ¬ (c = '\"') := (goodChar_spec c (h c (List.mem_cons_self _ _))).1
      simp [List.dropWhile_cons, hc]

theorem data_strTok (s : String) : (strTok s).data = '\"' :: (s.data ++ ['\"']) := by
  simp [strTok, String.data_append]

theorem trimQuotes_strTok (s : String) (h : goodStr s = true) : trimQuotes (strTok s) = s := by
  have hgood : ∀ c ∈ s.data, goodChar c = true := List.all_eq_true.mp h
  unfold trimQuotes dropLeadQuotes
  rw [data_strTok]
  cases hs : s.data with
  | nil =>
      have hseq : s = String.mk s.data := rfl
      rw [hs] at hseq
      rw [hseq]
      decide
  | cons c cs =>
      have hgood2 : ∀ x ∈ c :: cs, goodChar x = true := by rw [← hs]; exact hgood
      have hcq : ¬ (c = '\"') := (goodChar_spec c (hgood2 c (List.mem_cons_self _ _))).1
      have h1 : (('\"' :: (c :: cs ++ ['\"'])).dropWhile (fun x => x = '\"')) =
          c :: cs ++ ['\"'] := by
        rw [List.dropWhile_cons, if_pos (by decide : (decide (('\"' : Char) = '\"')) = true),
          List.cons_append, List.dropWhile_cons, if_neg (by simp [hcq]), ← List.cons_append]
      rw [h1]
      have h2 : (((c :: cs ++ ['\"']).reverse).dropWhile (fun x => x = '\"')) =
          (c :: cs).reverse := by
        have hsplit : (c :: cs ++ ['\"']).reverse = '\"' :: (c :: cs).reverse := by
          rw [List.reverse_append]
          simp
        rw [hsplit, List.dropWhile_cons,
          if_pos (by decide : (decide (('\"' : Char) = '\"')) = true)]
        exact dropWhile_quote_of_good _ (fun x hx => hgood2 x (List.mem_reverse.mp hx))
      rw [h2, List.reverse_reverse, ← hs]

theorem removeQuotes_strTok (s : String) (h : goodStr s = true) : removeQuotes (strTok s) = s := by
  have hgood : ∀ c ∈ s.data, goodChar c = true := List.all_eq_true.mp h
  unfold removeQuotes
  rw [data_strTok]
  have hq : ¬ (('\"' : Char) ≠ '\"') := by simp
  rw [List.filter_cons]
  simp only [decide_eq_true_eq]
  rw [if_neg (by simp)]
  rw [List.filter_append]
  have hkeep : s.data.filter (fun c => decide (c ≠ '\"')) = s.data := by
    apply List.filter_eq_self.mpr
    intro c hc
    simp [(goodChar_spec c (hgood c hc)).1]
  have hdrop : (['\"'] : List Char).filter (fun c => decide (c ≠ '\"')) = [] := by decide
  rw [hkeep, hdrop, List.append_nil]

/-! scanner lemmas -/

theorem wsChar_of_digit (c : Char) (h : isDigitChar c = true) : isWsChar c = false := by
  simp [isDigitChar] at h
  simp [isWsChar]
  refine ⟨⟨⟨?_, ?_⟩, ?_⟩, ?_⟩ <;> intro hh <;> rw [hh] at h <;> exact absurd h (by decide)

theorem takeStr_good : ∀ (cs : List Char), (∀ c ∈ cs, goodChar c = true) → ∀ r,
    takeStr (cs ++ '\"' :: r) = some (cs, r) := by
  intro cs
  induction cs with
  | nil =>
      intro _ r
      simp [takeStr]
  | cons c cs ih =>
      intro h r
      obtain ⟨h1, h2, h3, h4⟩ := goodChar_spec c (h c (List.mem_cons_self _ _))
      rw [List.cons_append]
      unfold takeStr
      rw [if_neg h1, if_neg (by simp [h2, h3, h4])]
      rw [ih (fun x hx => h x (List.mem_cons_of_mem _ hx)) r]
      rfl

theorem spanP_exact (p : Char → Bool) : ∀ (xs : List Char) (y : Char) (r : List Char),
    (∀ c ∈ xs, p c = true) → p y = false →
    spanP p (xs ++ y :: r) = (xs, y :: r) := by
  intro xs
  induction xs with
  | nil =>
      intro y r _ hy
      simp [spanP, hy]
  | cons c cs ih =>
      intro y r h hy
      rw [List.cons_append]
      unfold spanP
      rw [if_pos (h c (List.mem_cons_self _ _))]
      rw [ih y r (fun x hx => h x (List.mem_cons_of_mem _ hx)) hy]

/-! expression-level parse lemmas -/

theorem parseExprC_str (fuel : Nat) (s : String) (h : goodStr s = true) (r : List Char) :
    parseExprC (fuel + 1) ('\"' :: (s.data ++ '\"' :: r)) = some (LuaExpr.str (strTok s), r) := by
  have hmk : String.mk ('\"' :: (s.data ++ ['\"'])) = strTok s := by
    rw [← data_strTok]
  unfold parseExprC
  rw [show skipWs ('\"' :: (s.data ++ '\"' :: r)) = '\"' :: (s.data ++ '\"' :: r) from by
    simp [skipWs, isWsChar]]
  dsimp only
  rw [if_pos rfl]
  rw [takeStr_good s.data (List.all_eq_true.mp h) r]
  simp [hmk]

theorem parseExprC_num (fuel : Nat) (ds : List Char) (hne : ds ≠ [])
    (hd : ∀ c ∈ ds, isDigitChar c = true) (y : Char) (hy : isDigitChar y = false)
    (r : List Char) :
    parseExprC (fuel + 1) (ds ++ y :: r) = some (LuaExpr.num (String.mk ds), y :: r) := by
  obtain ⟨c, cs, rfl⟩ : ∃ c cs, ds = c :: cs := by
    cases ds with
    | nil => exact absurd rfl hne
    | cons c cs => exact ⟨c, cs, rfl⟩
  have hc : isDigitChar c = true := hd c (List.mem_cons_self _ _)
  have hq : ¬ (c = '\"') := by
    intro hh
    rw [hh] at hc
    exact absurd hc (by decide)
  unfold parseExprC
  rw [List.cons_append]
  rw [show skipWs (c :: (cs ++ y :: r)) = c :: (cs ++ y :: r) from by
    simp [skipWs, wsChar_of_digit c hc]]
  dsimp only
  rw [if_neg hq, if_pos hc]
  rw [← List.cons_append]
  rw [spanP_exact isDigitChar (c :: cs) y r hd hy]

/-! whitespace absorption -/

theorem parseExprC_ws (fuel : Nat) (c : Char) (cs : List Char) (h : isWsChar c = true) :
    parseExprC fuel (c :: cs) = parseExprC fuel cs := by
  cases fuel with
  | zero => rfl
  | succ n =>
      unfold parseExprC
      rw [show skipWs (c :: cs) = skipWs cs from by simp [skipWs, h]]

theorem parseFieldsC_ws (fuel : Nat) (c : Char) (cs : List Char) (h : isWsChar c = true) :
    parseFieldsC fuel (c :: cs) = parseFieldsC fuel cs := by
  cases fuel with
  | zero => rfl
  | succ n =>
      unfold parseFieldsC
      rw [show skipWs (c :: cs) = skipWs cs from by simp [skipWs, h]]

theorem parseSepC_ws (fuel : Nat) (f : LuaField) (c : Char) (cs : List Char)
    (h : isWsChar c = true) : parseSepC fuel f (c :: cs) = parseSepC fuel f cs := by
  cases fuel with
  | zero => rfl
  | succ n =>
      unfold parseSepC
      rw [show skipWs (c :: cs) = skipWs cs from by simp [skipWs, h]]

theorem skipWs_cons_not (c : Char) (cs : List Char) (h : isWsChar c = false) :
    skipWs (c :: cs) = c :: cs := by
  simp [skipWs, h]

/-! entry fragment -/

theorem parseExprC_entry (fuel : Nat) (t : TalentLoadout) (h : goodTalent t = true)
    (r : List Char) :
    parseExprC (fuel + 8 + 1)
      (("\x7b [\"icon\"] = ").data ++ (intRepr t.icon).data ++ (", [\"name\"] = \"").data ++
        t.name.data ++ ("\", [\"text\"] = \"").data ++ t.text.data ++ ("\" \x7d").data ++ r) =
      some (LuaExpr.table (entryFieldsAst t), r) := by
  have hb : goodStr t.name = true ∧ goodStr t.text = true ∧ 0 ≤ t.icon ∧ t.icon < 2 ^ 63 := by
    simp [goodTalent] at h
    exact ⟨h.1.1.1, h.1.1.2, h.1.2, h.2⟩
  obtain ⟨hn, hx, h0, h1⟩ := hb
  have hicon : intRepr t.icon = natRepr t.icon.toNat := by
    unfold intRepr
    rw [if_neg (by omega)]
  obtain ⟨hdig, hval, hne⟩ := natReprChars_spec t.icon.toNat
  obtain ⟨c, cs, hl⟩ : ∃ c cs, natReprChars t.icon.toNat = c :: cs := by
    cases hll : natReprChars t.icon.toNat with
    | nil => exact absurd hll hne
    | cons c cs => exact ⟨c, cs, rfl⟩
  have hcd : isDigitChar c = true := hdig c (by rw [hl]; exact List.mem_cons_self _ _)
  have hcsd : ∀ x ∈ c :: cs, isDigitChar x = true := by rw [← hl]; exact hdig
  have hcw : isWsChar c = false := wsChar_of_digit c hcd
  have hcq : ¬ (c = '\"') := by
    intro hh
    rw [hh] at hcd
    exact absurd hcd (by decide)
  have hspan : ∀ X, spanP isDigitChar (c :: (cs ++ ',' :: X)) = (c :: cs, ',' :: X) := by
    intro X
    have hh := spanP_exact isDigitChar (c :: cs) ',' X hcsd (by decide)
    rw [List.cons_append] at hh
    exact hh
  have htakeN : ∀ X, takeStr (t.name.data ++ '\"' :: X) = some (t.name.data, X) :=
    takeStr_good t.name.data (List.all_eq_true.mp hn)
  have htakeT : ∀ X, takeStr (t.text.data ++ '\"' :: X) = some (t.text.data, X) :=
    takeStr_good t.text.data (List.all_eq_true.mp hx)
  have hmkN : String.mk ('\"' :: (t.name.data ++ ['\"'])) = strTok t.name := by
    rw [← data_strTok]
  have hmkT : String.mk ('\"' :: (t.text.data ++ ['\"'])) = strTok t.text := by
    rw [← data_strTok]
  have hcw2 : ¬ (((c = ' ' ∨ c = '\n') ∨ c = '\t') ∨ c = '\x0d') := by
    simpa [isWsChar] using hcw
  have hcd2 : 48 ≤ c.toNat ∧ c.toNat ≤ 57 := by
    simpa [isDigitChar] using hcd
  rw [hicon]
  unfold natRepr
  rw [hl]
  simp [entryFieldsAst, parseExprC, parseFieldsC, parseSepC, skipWs, takeStr,
    isWsChar, isDigitChar, isNameStartChar, isNameChar, nameExpr, strTok,
    parseExprC_ws, parseFieldsC_ws, parseSepC_ws,
    hcd2, hcw2, hcq, hspan, htakeN, htakeT, hmkN, hmkT, hicon]
  rw [← hl]
  rfl

/-! entries list fragment -/

theorem join_foldl_data : ∀ (l : List String) (a : String),
    (List.foldl (fun r s => r ++ s) a l).data = a.data ++ (String.join l).data := by
  intro l
  induction l with
  | nil =>
      intro a
      simp [String.join]
  | cons x xs ih =>
      intro a
      rw [List.foldl_cons]
      rw [ih (a ++ x)]
      have h2 : (String.join (x :: xs)).data = (x ++ String.join xs).data := by
        show (List.foldl (fun r s => r ++ s) "" (x :: xs)).data = _
        rw [List.foldl_cons, ih ("" ++ x)]
        simp [String.data_append]
      rw [h2]
      simp [String.data_append]

theorem entriesChars_cons (t : TalentLoadout) (ts : List TalentLoadout) :
    entriesChars (t :: ts) = (talentLine t).data ++ entriesChars ts := by
  unfold entriesChars
  show (List.foldl (fun r s => r ++ s) "" (talentLine t :: ts.map talentLine)).data = _
  rw [List.foldl_cons, join_foldl_data]
  simp [String.data_append]

set_option maxHeartbeats 2000000 in
theorem parseFieldsC_entries : ∀ (ts : List TalentLoadout) (fuel : Nat) (r : List Char),
    (∀ t ∈ ts, goodTalent t = true) →
    parseFieldsC (fuel + kEntries ts) (entriesChars ts ++ ("    \x7d").data ++ r) =
      some (ts.map entryAst, r) := by
  intro ts
  induction ts with
  | nil =>
      intro fuel r _
      simp [kEntries, entriesChars, String.join, parseFieldsC, skipWs, isWsChar]
  | cons t ts ih =>
      intro fuel r h
      have ih2 : ∀ (f : Nat) (X : List Char), (∀ x ∈ ts, goodTalent x = true) →
          parseFieldsC (f + kEntries ts) (entriesChars ts ++ ("    \x7d").data ++ X) =
          some (ts.map entryAst, X) := fun f X hh => ih f X hh
      have hb : goodStr t.name = true ∧ goodStr t.text = true ∧ 0 ≤ t.icon ∧ t.icon < 2 ^ 63 := by
        have hg := h t (List.mem_cons_self _ _)
        simp [goodTalent] at hg
        exact ⟨hg.1.1.1, hg.1.1.2, hg.1.2, hg.2⟩
      obtain ⟨hn, hx, h0, h1⟩ := hb
      have hicon : intRepr t.icon = natRepr t.icon.toNat := by
        unfold intRepr
        rw [if_neg (by omega)]
      obtain ⟨hdig, hval, hne⟩ := natReprChars_spec t.icon.toNat
      obtain ⟨c, cs, hl⟩ : ∃ c cs, natReprChars t.icon.toNat = c :: cs := by
        cases hll : natReprChars t.icon.toNat with
        | nil => exact absurd hll hne
        | cons c cs => exact ⟨c, cs, rfl⟩
      have hcd : isDigitChar c = true := hdig c (by rw [hl]; exact List.mem_cons_self _ _)
      have hcsd : ∀ x ∈ c :: cs, isDigitChar x = true := by rw [← hl]; exact hdig
      have hcw : isWsChar c = false := wsChar_of_digit c hcd
      have hcq : ¬ (c = '\"') := by
        intro hh
        rw [hh] at hcd
        exact absurd hcd (by decide)
      have hspan : ∀ X, spanP isDigitChar (c :: (cs ++ ',' :: X)) = (c :: cs, ',' :: X) := by
        intro X
        have hh := spanP_exact isDigitChar (c :: cs) ',' X hcsd (by decide)
        rw [List.cons_append] at hh
        exact hh
      have htakeN : ∀ X, takeStr (t.name.data ++ '\"' :: X) = some (t.name.data, X) :=
        takeStr_good t.name.data (List.all_eq_true.mp hn)
      have htakeT : ∀ X, takeStr (t.text.data ++ '\"' :: X) = some (t.text.data, X) :=
        takeStr_good t.text.data (List.all_eq_true.mp hx)
      have hmkN : String.mk ('\"' :: (t.name.data ++ ['\"'])) = strTok t.name := by
        rw [← data_strTok]
      have hmkT : String.mk ('\"' :: (t.text.data ++ ['\"'])) = strTok t.text := by
        rw [← data_strTok]
      have hcw2 : ¬ (((c = ' ' ∨ c = '\n') ∨ c = '\t') ∨ c = '\x0d') := by
        simpa [isWsChar] using hcw
      have hcd2 : 48 ≤ c.toNat ∧ c.toNat ≤ 57 := by
        simpa [isDigitChar] using hcd
      have e1 : fuel + kEntries (t :: ts) = fuel + kEntries ts + 10 := by
        simp [kEntries]
        omega
      rw [e1, entriesChars_cons]
      simp only [List.append_assoc]
      rw [show (talentLine t).data = ("      ").data ++ (("\x7b [\"icon\"] = ").data ++
        (intRepr t.icon).data ++ (", [\"name\"] = \"").data ++ t.name.data ++
        ("\", [\"text\"] = \"").data ++ t.text.data ++ ("\" \x7d").data ++ (",\n").data) from by
          simp [talentLine, String.data_append]]
      rw [hicon]
      unfold natRepr
      rw [hl]
      have htail : ∀ x ∈ ts, goodTalent x = true := fun x hx => h x (List.mem_cons_of_mem _ hx)
      have key := ih2 (fuel + 8) r htail
      rw [show fuel + 8 + kEntries ts = fuel + (kEntries ts + 8) from by omega] at key
      simp [parseFieldsC, parseExprC, parseSepC, skipWs, takeStr,
        isWsChar, isDigitChar, isNameStartChar, isNameChar, nameExpr, strTok,
        parseExprC_ws, parseFieldsC_ws, parseSepC_ws,
        hcd2, hcw2, hcq, hspan, htakeN, htakeT, hmkN, hmkT, hicon] at key
      simp [entryFieldsAst, parseExprC, parseFieldsC, parseSepC, skipWs, takeStr,
        isWsChar, isDigitChar, isNameStartChar, isNameChar, nameExpr, strTok,
        parseExprC_ws, parseFieldsC_ws, parseSepC_ws,
        hcd2, hcw2, hcq, hspan, htakeN, htakeT, hmkN, hmkT, hicon, key]
      rw [← hl]
      simp [entryAst, entryFieldsAst, strTok, natRepr, hicon]

theorem slotsChars_cons (p : Nat × List TalentLoadout) (sl : List (Nat × List TalentLoadout)) :
    slotsChars (p :: sl) = (slotBlock p.1 p.2).data ++ slotsChars sl := by
  unfold slotsChars
  show (List.foldl (fun r s => r ++ s) ""
    (slotBlock p.1 p.2 :: sl.map (fun q => slotBlock q.1 q.2))).data = _
  rw [List.foldl_cons, join_foldl_data]
  simp [String.data_append]

set_option maxHeartbeats 4000000 in
theorem parseFieldsC_slots : ∀ (sl : List (Nat × List TalentLoadout)) (fuel : Nat) (r : List Char),
    (∀ p ∈ sl, ∀ t ∈ p.2, goodTalent t = true) →
    parseFieldsC (fuel + kSlots sl) (slotsChars sl ++ ("  \x7d").data ++ r) =
      some (sl.map (fun p => slotFieldAst p.1 p.2), r) := by
  intro sl
  induction sl with
  | nil =>
      intro fuel r _
      simp [kSlots, slotsChars, String.join, parseFieldsC, skipWs, isWsChar]
  | cons p sl ih =>
      obtain ⟨i, ts⟩ := p
      intro fuel r h
      have hts : ∀ t ∈ ts, goodTalent t = true :=
        fun t ht => h (i, ts) (List.mem_cons_self _ _) t ht
      have htail : ∀ q ∈ sl, ∀ t ∈ q.2, goodTalent t = true :=
        fun q hq => h q (List.mem_cons_of_mem _ hq)
      obtain ⟨hdig, hval, hne⟩ := natReprChars_spec i
      obtain ⟨c, cs, hl⟩ : ∃ c cs, natReprChars i = c :: cs := by
        cases hll : natReprChars i with
        | nil => exact absurd hll hne
        | cons c cs => exact ⟨c, cs, rfl⟩
      have hcd : isDigitChar c = true := hdig c (by rw [hl]; exact List.mem_cons_self _ _)
      have hcsd : ∀ x ∈ c :: cs, isDigitChar x = true := by rw [← hl]; exact hdig
      have hcw : isWsChar c = false := wsChar_of_digit c hcd
      have hcq : ¬ (c = '\"') := by
        intro hh
        rw [hh] at hcd
        exact absurd hcd (by decide)
      have hspan : ∀ X, spanP isDigitChar (c :: (cs ++ ']' :: X)) = (c :: cs, ']' :: X) := by
        intro X
        have hh := spanP_exact isDigitChar (c :: cs) ']' X hcsd (by decide)
        rw [List.cons_append] at hh
        exact hh
      have hcw2 : ¬ (((c = ' ' ∨ c = '\n') ∨ c = '\t') ∨ c = '\x0d') := by
        simpa [isWsChar] using hcw
      have hcd2 : 48 ≤ c.toNat ∧ c.toNat ≤ 57 := by
        simpa [isDigitChar] using hcd
      have e1 : fuel + kSlots ((i, ts) :: sl) = fuel + kSlots sl + kEntries ts + 10 := by
        simp [kSlots]
        omega
      rw [e1, slotsChars_cons]
      simp only [List.append_assoc]
      rw [show (slotBlock (i, ts).1 (i, ts).2).data = ("    [").data ++
        (natRepr i).data ++ ("] = \x7b\n").data ++ entriesChars ts ++
        ("    \x7d,\n").data from by
          simp [slotBlock, entriesChars, String.data_append]]
      unfold natRepr
      rw [hl]
      have key1 := parseFieldsC_entries ts (fuel + kSlots sl + 8)
        ((",\n").data ++ (slotsChars sl ++ (("  \x7d").data ++ r))) hts
      rw [show fuel + kSlots sl + 8 + kEntries ts =
        fuel + kSlots sl + kEntries ts + 8 from by omega] at key1
      have key2 := ih (fuel + kEntries ts + 8) r htail
      rw [show fuel + kEntries ts + 8 + kSlots sl =
        fuel + kSlots sl + kEntries ts + 8 from by omega] at key2
      simp [parseFieldsC, parseExprC, parseSepC, skipWs,
        isWsChar, isDigitChar, isNameStartChar, isNameChar, nameExpr,
        hcd2, hcw2, hcq, hspan] at key1 key2
      simp [parseFieldsC, parseExprC, parseSepC, skipWs,
        isWsChar, isDigitChar, isNameStartChar, isNameChar, nameExpr,
        hcd2, hcw2, hcq, hspan, key1, key2]
      rw [← hl]
      simp [slotFieldAst, natRepr]

theorem classesChars_cons (p : String × List (Nat × List TalentLoadout))
    (cl : List (String × List (Nat × List TalentLoadout))) :
    classesChars (p :: cl) = (classBlockGen p.1 p.2).data ++ classesChars cl := by
  unfold classesChars
  show (List.foldl (fun r s => r ++ s) ""
    (classBlockGen p.1 p.2 :: cl.map (fun q => classBlockGen q.1 q.2))).data = _
  rw [List.foldl_cons, join_foldl_data]
  simp [String.data_append]

set_option maxHeartbeats 1000000 in
theorem parseFieldsC_option (fuel : Nat) (r : List Char) :
    parseFieldsC (fuel + 11 + 1) (optionLine.data ++ '\x7d' :: r) = some ([optionFieldAst], r) := by
  simp [optionLine, optionFieldAst, strTok, parseFieldsC, parseExprC, parseSepC, skipWs,
    spanP, takeStr, isWsChar, isDigitChar, isNameStartChar, isNameChar, nameExpr]

set_option maxHeartbeats 4000000 in
theorem parseFieldsC_classes : ∀ (cl : List (String × List (Nat × List TalentLoadout)))
    (fuel : Nat) (r : List Char),
    (∀ p ∈ cl, goodStr p.1 = true ∧ ∀ q ∈ p.2, ∀ t ∈ q.2, goodTalent t = true) →
    parseFieldsC (fuel + kClasses cl) (classesChars cl ++ optionLine.data ++ '\x7d' :: r) =
      some (cl.map (fun p => classFieldGen p.1 p.2) ++ [optionFieldAst], r) := by
  intro cl
  induction cl with
  | nil =>
      intro fuel r _
      have hk : fuel + kClasses ([] : List (String × List (Nat × List TalentLoadout))) =
          fuel + 11 + 1 := by
        simp [kClasses]
      rw [hk]
      have hc : classesChars ([] : List (String × List (Nat × List TalentLoadout))) = [] := by
        simp [classesChars, String.join]
      rw [hc, List.nil_append]
      simpa using parseFieldsC_option fuel r
  | cons p cl ih =>
      obtain ⟨cn, slp⟩ := p
      intro fuel r h
      have hcn : goodStr cn = true := (h (cn, slp) (List.mem_cons_self _ _)).1
      have hslp : ∀ q ∈ slp, ∀ t ∈ q.2, goodTalent t = true :=
        (h (cn, slp) (List.mem_cons_self _ _)).2
      have htail : ∀ q ∈ cl, goodStr q.1 = true ∧ ∀ w ∈ q.2, ∀ t ∈ w.2, goodTalent t = true :=
        fun q hq => h q (List.mem_cons_of_mem _ hq)
      have htakeC : ∀ X, takeStr (cn.data ++ '\"' :: X) = some (cn.data, X) :=
        takeStr_good cn.data (List.all_eq_true.mp hcn)
      have hmkC : String.mk ('\"' :: (cn.data ++ ['\"'])) = strTok cn := by
        rw [← data_strTok]
      have e1 : fuel + kClasses ((cn, slp) :: cl) = fuel + kClasses cl + kSlots slp + 10 := by
        simp [kClasses]
        omega
      rw [e1, classesChars_cons]
      simp only [List.append_assoc]
      rw [show (classBlockGen (cn, slp).1 (cn, slp).2).data = ("  [\"").data ++
        cn.data ++ ("\"] = \x7b\n").data ++ slotsChars slp ++
        ("  \x7d,\n").data from by
          simp [classBlockGen, slotsChars, String.data_append]]
      have key1 := parseFieldsC_slots slp (fuel + kClasses cl + 8)
        ((",\n").data ++ (classesChars cl ++ (optionLine.data ++ '\x7d' :: r))) hslp
      rw [show fuel + kClasses cl + 8 + kSlots slp =
        fuel + kClasses cl + kSlots slp + 8 from by omega] at key1
      have key2 := ih (fuel + kSlots slp + 8) r htail
      rw [show fuel + kSlots slp + 8 + kClasses cl =
        fuel + kClasses cl + kSlots slp + 8 from by omega] at key2
      simp [parseFieldsC, parseExprC, parseSepC, skipWs, takeStr,
        isWsChar, isDigitChar, isNameStartChar, isNameChar, nameExpr,
        htakeC, hmkC] at key1 key2
      simp [parseFieldsC, parseExprC, parseSepC, skipWs, takeStr,
        isWsChar, isDigitChar, isNameStartChar, isNameChar, nameExpr,
        htakeC, hmkC, key1, key2]
      rfl

theorem classBlock_eq_gen (c : String) (ct : ClassTalents) :
    classBlock c ct = classBlockGen c (slotPairs ct) := by
  simp [classBlock, classBlockGen, slotPairs, List.map_map, Function.comp]
  rfl

theorem to_lua_string_data (s : StoreMap) :
    (to_lua_string s).data = ("TalentLoadoutEx = \x7b\n").data ++
      (classesChars (classPairs s) ++ (optionLine.data ++ '\x7d' :: ['\n'])) := by
  unfold to_lua_string classesChars classPairs
  simp [String.data_append, List.map_map, Function.comp, classBlock_eq_gen]
  rfl

set_option maxHeartbeats 2000000 in
theorem parseChunkC_store (s : StoreMap) (fuel : Nat)
    (h : ∀ p ∈ classPairs s, goodStr p.1 = true ∧ ∀ q ∈ p.2, ∀ t ∈ q.2, goodTalent t = true) :
    parseChunkC (fuel + kTop s) ((to_lua_string s).data) = some (storeAst s) := by
  have e1 : fuel + kTop s = fuel + kClasses (classPairs s) + 6 := by
    simp [kTop]
    omega
  rw [to_lua_string_data, e1]
  have key := parseFieldsC_classes (classPairs s) (fuel + 4) ['\n'] h
  rw [show fuel + 4 + kClasses (classPairs s) =
    fuel + kClasses (classPairs s) + 4 from by omega] at key
  simp [parseFieldsC, parseExprC, parseSepC, skipWs, spanP, takeStr,
    isWsChar, isDigitChar, isNameStartChar, isNameChar, nameExpr] at key
  simp [parseChunkC, parseExprC, parseFieldsC, parseSepC, skipWs, spanP, takeStr,
    isWsChar, isDigitChar, isNameStartChar, isNameChar, nameExpr, key, storeAst, topFieldsAst]

theorem kEntries_le : ∀ (ts : List TalentLoadout), kEntries ts ≤ (entriesChars ts).length + 1 := by
  intro ts
  induction ts with
  | nil => simp [kEntries, entriesChars, String.join]
  | cons t ts ih =>
      have hb : 10 ≤ (talentLine t).data.length := by
        simp [talentLine, String.data_append]
      have hc : kEntries (t :: ts) = kEntries ts + 10 := by simp [kEntries]
      rw [hc, entriesChars_cons, List.length_append]
      omega

theorem kSlots_le : ∀ (sl : List (Nat × List TalentLoadout)),
    kSlots sl ≤ (slotsChars sl).length + 1 := by
  intro sl
  induction sl with
  | nil => simp [kSlots, slotsChars, String.join]
  | cons p sl ih =>
      have he := kEntries_le p.2
      have hb : kEntries p.2 + 11 ≤ (slotBlock p.1 p.2).data.length := by
        simp [slotBlock, String.data_append, entriesChars] at he ⊢
        omega
      have hc : kSlots (p :: sl) = kSlots sl + kEntries p.2 + 10 := by simp [kSlots]
      rw [hc, slotsChars_cons, List.length_append]
      omega

theorem kClasses_le : ∀ (cl : List (String × List (Nat × List TalentLoadout))),
    kClasses cl ≤ (classesChars cl).length + 12 := by
  intro cl
  induction cl with
  | nil => simp [kClasses, classesChars, String.join]
  | cons p cl ih =>
      have hs := kSlots_le p.2
      have hb : kSlots p.2 + 11 ≤ (classBlockGen p.1 p.2).data.length := by
        simp [classBlockGen, String.data_append, slotsChars] at hs ⊢
        omega
      have hc : kClasses (p :: cl) = kClasses cl + kSlots p.2 + 10 := by simp [kClasses]
      rw [hc, classesChars_cons, List.length_append]
      omega

theorem kTop_le (s : StoreMap) : kTop s ≤ (to_lua_string s).data.length + 1 := by
  have hc := kClasses_le (classPairs s)
  rw [to_lua_string_data s, List.length_append, List.length_append]
  have ho : (optionLine.data ++ '\x7d' :: ['\n']).length = 47 := by decide
  have hh : (("TalentLoadoutEx = \x7b\n").data).length = 20 := by decide
  rw [ho, hh]
  unfold kTop
  omega

theorem luaParse_to_lua_string (s : StoreMap)
    (h : ∀ p ∈ classPairs s, goodStr p.1 = true ∧ ∀ q ∈ p.2, ∀ t ∈ q.2, goodTalent t = true) :
    luaParse (to_lua_string s) = some (storeAst s) := by
  have hb := kTop_le s
  unfold luaParse
  obtain ⟨d, hd⟩ : ∃ d, (to_lua_string s).data.length + 1 = d + kTop s :=
    ⟨(to_lua_string s).data.length + 1 - kTop s, by omega⟩
  rw [hd]
  exact parseChunkC_store s d h

theorem parse_single_entry (t : TalentLoadout) (h : goodTalent t = true) :
    parse_single_talent (entryFieldsAst t) = t := by
  have hb : goodStr t.name = true ∧ goodStr t.text = true ∧ 0 ≤ t.icon ∧ t.icon < 2 ^ 63 := by
    simp [goodTalent] at h
    exact ⟨h.1.1.1, h.1.1.2, h.1.2, h.2⟩
  obtain ⟨hn, hx, h0, h1⟩ := hb
  simp [parse_single_talent, entryFieldsAst, singleTalentStep,
    trimQuotes_strTok ("icon") (by decide), trimQuotes_strTok ("name") (by decide),
    trimQuotes_strTok ("text") (by decide), trimQuotes_strTok t.name hn,
    trimQuotes_strTok t.text hx, rustParseI64_intRepr t.icon h0 h1]

theorem parse_talent_list_map : ∀ (ts : List TalentLoadout),
    (∀ t ∈ ts, goodTalent t = true) → parse_talent_list (ts.map entryAst) = ts := by
  intro ts
  induction ts with
  | nil =>
      intro _
      simp [parse_talent_list]
  | cons t ts ih =>
      intro h
      simp [parse_talent_list, entryAst,
        parse_single_entry t (h t (List.mem_cons_self _ _)),
        ih (fun x hx => h x (List.mem_cons_of_mem _ hx))]

theorem ainsert_not_mem {α β : Type} [DecidableEq α] (k : α) (v : β) :
    ∀ (a : List (α × β)), k ∉ a.map Prod.fst → ainsert k v a = a ++ [(k, v)] := by
  intro a
  induction a with
  | nil => intro _; simp [ainsert]
  | cons p rest ih =>
      intro h
      obtain ⟨k2, w⟩ := p
      simp only [List.map_cons, List.mem_cons] at h
      push_neg at h
      have hne : ¬ k2 = k := fun hh => h.1 hh.symm
      simp [ainsert, hne, ih h.2]

theorem alookup_map_pair {α β : Type} [DecidableEq α] (g : α → β) (k : α) :
    ∀ (l : List α), alookup k (l.map (fun a => (a, g a))) =
      if k ∈ l then some (g k) else none := by
  intro l
  induction l with
  | nil => simp [alookup]
  | cons a l ih =>
      by_cases h : a = k
      · subst h
        simp [alookup]
      · have h2 : ¬ (k = a) := fun hh => h hh.symm
        simp [alookup, h, h2, ih]

theorem parse_class_talents_fold : ∀ (sl : List (Nat × List TalentLoadout)) (acc : ClassTalents),
    (∀ p ∈ sl, p.1 < 256 ∧ ∀ t ∈ p.2, goodTalent t = true) →
    (sl.map Prod.fst).Nodup →
    (∀ k ∈ sl.map Prod.fst, k ∉ acc.map Prod.fst) →
    (sl.map (fun p => slotFieldAst p.1 p.2)).foldl classTalentsStep acc = acc ++ sl := by
  intro sl
  induction sl with
  | nil =>
      intro acc _ _ _
      simp
  | cons p sl ih =>
      intro acc h hnd hfresh
      obtain ⟨i, ts⟩ := p
      have h1 := h (i, ts) (List.mem_cons_self _ _)
      rw [List.map_cons] at hnd
      have hnd2 := List.nodup_cons.mp hnd
      simp only [List.map_cons, List.foldl_cons]
      rw [show classTalentsStep acc (slotFieldAst i ts) = ainsert i ts acc from by
        simp [classTalentsStep, slotFieldAst, rustParseU8_natRepr i h1.1,
          parse_talent_list_map ts h1.2]]
      rw [ainsert_not_mem i ts acc (hfresh i (by simp))]
      rw [ih (acc ++ [(i, ts)]) (fun q hq => h q (List.mem_cons_of_mem _ hq)) hnd2.2
        (by
          intro k hk
          simp only [List.map_append, List.mem_append] at *
          intro hcon
          rcases hcon with hcon | hcon
          · exact hfresh k (by simp [hk]) hcon
          · simp at hcon
            rw [hcon] at hk
            exact hnd2.1 hk)]
      simp

theorem parse_talent_table_fold : ∀ (cl : List (String × List (Nat × List TalentLoadout)))
    (acc : StoreMap),
    (∀ p ∈ cl, p.1 ≠ "OPTION" ∧ goodStr p.1 = true ∧ (p.2.map Prod.fst).Nodup ∧
      ∀ q ∈ p.2, q.1 < 256 ∧ ∀ t ∈ q.2, goodTalent t = true) →
    (cl.map Prod.fst).Nodup →
    (∀ k ∈ cl.map Prod.fst, k ∉ acc.map Prod.fst) →
    (cl.map (fun p => classFieldGen p.1 p.2) ++ [optionFieldAst]).foldl talentTableStep acc =
      acc ++ cl := by
  intro cl
  induction cl with
  | nil =>
      intro acc _ _ _
      simp [talentTableStep, optionFieldAst, removeQuotes_strTok ("OPTION") (by decide)]
  | cons p cl ih =>
      intro acc h hnd hfresh
      obtain ⟨cn, sl⟩ := p
      have h1 := h (cn, sl) (List.mem_cons_self _ _)
      rw [List.map_cons] at hnd
      have hnd2 := List.nodup_cons.mp hnd
      simp only [List.map_cons, List.cons_append, List.foldl_cons]
      rw [show talentTableStep acc (classFieldGen cn sl) =
        ainsert cn ((sl.map (fun p => slotFieldAst p.1 p.2)).foldl classTalentsStep []) acc from by
          simp [talentTableStep, classFieldGen, removeQuotes_strTok cn h1.2.1, h1.1,
            parse_class_talents]]
      rw [parse_class_talents_fold sl [] h1.2.2.2 h1.2.2.1 (by simp)]
      simp only [List.nil_append]
      rw [ainsert_not_mem cn sl acc (hfresh cn (by simp))]
      rw [ih (acc ++ [(cn, sl)]) (fun q hq => h q (List.mem_cons_of_mem _ hq)) hnd2.2
        (by
          intro k hk
          simp only [List.map_append, List.mem_append] at *
          intro hcon
          rcases hcon with hcon | hcon
          · exact hfresh k (by simp [hk]) hcon
          · simp at hcon
            rw [hcon] at hk
            exact hnd2.1 hk)]
      simp

theorem alookup_slotPairs (ct : ClassTalents) (i : Nat) :
    alookup i (slotPairs ct) = alookup i ct := by
  unfold slotPairs
  rw [alookup_map_pair]
  have hiff : i ∈ sortedSpecIndices ct ↔ i ∈ ct.map Prod.fst :=
    (List.perm_insertionSort _ _).mem_iff
  by_cases h : i ∈ ct.map Prod.fst
  · rw [if_pos (hiff.mpr h)]
    obtain ⟨v, hv⟩ : ∃ v, alookup i ct = some v :=
      Option.isSome_iff_exists.mp ((alookup_isSome_iff_mem i ct).mpr h)
    rw [hv]
    rfl
  · rw [if_neg (fun hh => h (hiff.mp hh))]
    cases hv : alookup i ct with
    | none => rfl
    | some v => exact absurd ((alookup_isSome_iff_mem i ct).mp (by simp [hv])) h

theorem alookup_classPairs (s : StoreMap) (c : String) :
    alookup c (classPairs s) =
      if c ∈ s.map Prod.fst then some (slotPairs ((alookup c s).getD [])) else none := by
  unfold classPairs
  rw [alookup_map_pair]
  have hiff : c ∈ sortedClassNames s ↔ c ∈ s.map Prod.fst :=
    (List.perm_insertionSort _ _).mem_iff
  by_cases h : c ∈ s.map Prod.fst
  · rw [if_pos (hiff.mpr h), if_pos h]
    rfl
  · rw [if_neg (fun hh => h (hiff.mp hh)), if_neg h]

theorem sameContents_classPairs (s : StoreMap) : sameContents (classPairs s) s := by
  constructor
  · intro c
    show (alookup c (classPairs s)).isSome = (alookup c s).isSome
    rw [alookup_classPairs]
    by_cases h : c ∈ s.map Prod.fst
    · rw [if_pos h]
      obtain ⟨v, hv⟩ : ∃ v, alookup c s = some v :=
        Option.isSome_iff_exists.mp ((alookup_isSome_iff_mem c s).mpr h)
      rw [hv]
      rfl
    · rw [if_neg h]
      cases hv : alookup c s with
      | none => rfl
      | some v => exact absurd ((alookup_isSome_iff_mem c s).mp (by simp [hv])) h
  · intro c i
    show (alookup c (classPairs s)).bind (fun ct => alookup i ct) =
      (alookup c s).bind (fun ct => alookup i ct)
    rw [alookup_classPairs]
    by_cases h : c ∈ s.map Prod.fst
    · rw [if_pos h]
      obtain ⟨v, hv⟩ : ∃ v, alookup c s = some v :=
        Option.isSome_iff_exists.mp ((alookup_isSome_iff_mem c s).mpr h)
      rw [hv]
      simp [alookup_slotPairs]
    · rw [if_neg h]
      cases hv : alookup c s with
      | none => simp
      | some v => exact absurd ((alookup_isSome_iff_mem c s).mp (by simp [hv])) h

theorem mem_slotPairs {ct : ClassTalents} {q : Nat × List TalentLoadout}
    (hq : q ∈ slotPairs ct) : (q.1, q.2) ∈ ct := by
  unfold slotPairs at hq
  obtain ⟨i, hi, hqe⟩ := List.mem_map.mp hq
  have hm : i ∈ ct.map Prod.fst := (List.perm_insertionSort _ _).mem_iff.mp hi
  obtain ⟨v, hv⟩ : ∃ v, alookup i ct = some v :=
    Option.isSome_iff_exists.mp ((alookup_isSome_iff_mem i ct).mpr hm)
  have := alookup_eq_some_mem hv
  rw [← hqe]
  simpa [hv] using this

theorem mem_classPairs {s : StoreMap} {p : String × List (Nat × List TalentLoadout)}
    (hp : p ∈ classPairs s) : ∃ ct, (p.1, ct) ∈ s ∧ p.2 = slotPairs ct := by
  unfold classPairs at hp
  obtain ⟨c, hc, hpe⟩ := List.mem_map.mp hp
  have hm : c ∈ s.map Prod.fst := (List.perm_insertionSort _ _).mem_iff.mp hc
  obtain ⟨v, hv⟩ : ∃ v, alookup c s = some v :=
    Option.isSome_iff_exists.mp ((alookup_isSome_iff_mem c s).mpr hm)
  refine ⟨v, ?_, ?_⟩
  · rw [← hpe]
    exact alookup_eq_some_mem hv
  · rw [← hpe]
    simp [lookupClass, hv]

theorem slotPairs_keys_nodup {ct : ClassTalents} (h : (ct.map Prod.fst).Nodup) :
    ((slotPairs ct).map Prod.fst).Nodup := by
  have he : (slotPairs ct).map Prod.fst = sortedSpecIndices ct := by
    simp only [slotPairs, List.map_map]
    exact List.map_id _
  rw [he]
  exact ((List.perm_insertionSort _ _).nodup_iff).mpr h

theorem classPairs_keys_nodup {s : StoreMap} (h : (s.map Prod.fst).Nodup) :
    ((classPairs s).map Prod.fst).Nodup := by
  have he : (classPairs s).map Prod.fst = sortedClassNames s := by
    simp only [classPairs, List.map_map]
    exact List.map_id _
  rw [he]
  exact ((List.perm_insertionSort _ _).nodup_iff).mpr h

theorem storeInv_roundTrip (s : StoreMap) (hs : StoreInv s) : roundTripOk s := by
  obtain ⟨hnd, hmem⟩ := hs
  have hcp : ∀ p ∈ classPairs s, p.1 ≠ "OPTION" ∧ goodStr p.1 = true ∧
      (p.2.map Prod.fst).Nodup ∧ ∀ q ∈ p.2, q.1 < 256 ∧ ∀ t ∈ q.2, goodTalent t = true := by
    intro p hp
    obtain ⟨ct, hctmem, hpe⟩ := mem_classPairs hp
    have hm := hmem (p.1, ct) hctmem
    refine ⟨hm.1, hm.2.1, ?_, ?_⟩
    · rw [hpe]
      exact slotPairs_keys_nodup hm.2.2.1
    · intro q hq
      rw [hpe] at hq
      exact hm.2.2.2 (q.1, q.2) (mem_slotPairs hq)
  have hw : ∀ p ∈ classPairs s, goodStr p.1 = true ∧
      ∀ q ∈ p.2, ∀ t ∈ q.2, goodTalent t = true :=
    fun p hp => ⟨(hcp p hp).2.1, fun q hq t ht => ((hcp p hp).2.2.2 q hq).2 t ht⟩
  have hparse := luaParse_to_lua_string s hw
  have hfold := parse_talent_table_fold (classPairs s) [] hcp (classPairs_keys_nodup hnd)
    (by simp)
  have hstmts : parse_lua_stmts (storeAst s) = classPairs s := by
    have h1 : parse_lua_stmts (storeAst s) = parse_talent_table (topFieldsAst s) := by
      simp [parse_lua_stmts, storeAst]
    rw [h1]
    show (topFieldsAst s).foldl talentTableStep [] = classPairs s
    rw [show topFieldsAst s =
      (classPairs s).map (fun p => classFieldGen p.1 p.2) ++ [optionFieldAst] from rfl]
    rw [hfold]
    simp
  have hok : parse_lua (to_lua_string s) = Except.ok (classPairs s) := by
    unfold parse_lua
    rw [hparse]
    dsimp only
    rw [hstmts]
  unfold roundTripOk
  rw [hok]
  exact sameContents_classPairs s

theorem pushSlot_keys (i : Nat) (t : TalentLoadout) : ∀ ct : ClassTalents,
    (pushSlot i t ct).map Prod.fst =
      if i ∈ ct.map Prod.fst then ct.map Prod.fst else ct.map Prod.fst ++ [i] := by
  intro ct
  induction ct with
  | nil => simp [pushSlot]
  | cons p rest ih =>
      obtain ⟨j, slot⟩ := p
      by_cases h : j = i
      · subst h
        simp [pushSlot]
      · have h2 : ¬ i = j := fun hh => h hh.symm
        by_cases hm : i ∈ rest.map Prod.fst
        · simp [pushSlot, h, h2, hm, ih]
        · simp [pushSlot, h, h2, hm, ih]

theorem pushSlot_mem (i : Nat) (t : TalentLoadout) : ∀ (ct : ClassTalents)
    (q : Nat × List TalentLoadout), q ∈ pushSlot i t ct →
    q = (i, [t]) ∨ ∃ p ∈ ct, q.1 = p.1 ∧ (q.2 = p.2 ∨ q.2 = p.2 ++ [t]) := by
  intro ct
  induction ct with
  | nil =>
      intro q hq
      simp [pushSlot] at hq
      left
      exact hq
  | cons p rest ih =>
      intro q hq
      obtain ⟨j, slot⟩ := p
      by_cases h : j = i
      · subst h
        simp [pushSlot] at hq
        rcases hq with hq | hq
        · right
          exact ⟨(j, slot), List.mem_cons_self _ _, by simp [hq]⟩
        · right
          exact ⟨q, List.mem_cons_of_mem _ hq, rfl, Or.inl rfl⟩
      · simp [pushSlot, h] at hq
        rcases hq with hq | hq
        · right
          exact ⟨(j, slot), List.mem_cons_self _ _, by simp [hq]⟩
        · rcases ih q hq with h1 | ⟨p2, hp2, he⟩
          · left
            exact h1
          · right
            exact ⟨p2, List.mem_cons_of_mem _ hp2, he⟩

theorem add_talent_keys (c : String) (i : Nat) (t : TalentLoadout) : ∀ s : StoreMap,
    (add_talent c i t s).map Prod.fst =
      if c ∈ s.map Prod.fst then s.map Prod.fst else s.map Prod.fst ++ [c] := by
  intro s
  induction s with
  | nil => simp [add_talent]
  | cons p rest ih =>
      obtain ⟨c2, ct⟩ := p
      by_cases h : c2 = c
      · subst h
        simp [add_talent]
      · have h2 : ¬ c = c2 := fun hh => h hh.symm
        by_cases hm : c ∈ rest.map Prod.fst
        · simp [add_talent, h, h2, hm, ih]
        · simp [add_talent, h, h2, hm, ih]

theorem add_talent_mem (c : String) (i : Nat) (t : TalentLoadout) : ∀ (s : StoreMap)
    (p : String × ClassTalents), p ∈ add_talent c i t s →
    p = (c, [(i, [t])]) ∨ ∃ p2 ∈ s, p.1 = p2.1 ∧ (p.2 = p2.2 ∨ p.2 = pushSlot i t p2.2) := by
  intro s
  induction s with
  | nil =>
      intro p hp
      simp [add_talent] at hp
      left
      exact hp
  | cons p0 rest ih =>
      intro p hp
      obtain ⟨c2, ct⟩ := p0
      by_cases h : c2 = c
      · subst h
        simp [add_talent] at hp
        rcases hp with hp | hp
        · right
          exact ⟨(c2, ct), List.mem_cons_self _ _, by simp [hp]⟩
        · right
          exact ⟨p, List.mem_cons_of_mem _ hp, rfl, Or.inl rfl⟩
      · simp [add_talent, h] at hp
        rcases hp with hp | hp
        · right
          exact ⟨(c2, ct), List.mem_cons_self _ _, by simp [hp]⟩
        · rcases ih p hp with h1 | ⟨p2, hp2, he⟩
          · left
            exact h1
          · right
            exact ⟨p2, List.mem_cons_of_mem _ hp2, he⟩

theorem add_talent_StoreInv (c : String) (i : Nat) (t : TalentLoadout) (s : StoreMap)
    (hc : c ≠ "OPTION") (hg : goodStr c = true) (hi : i < 256) (ht : goodTalent t = true)
    (hs : StoreInv s) : StoreInv (add_talent c i t s) := by
  obtain ⟨hnd, hmem⟩ := hs
  constructor
  · rw [add_talent_keys]
    by_cases h : c ∈ s.map Prod.fst
    · simpa [h] using hnd
    · simp [h, List.nodup_append, hnd]
  · intro p hp
    rcases add_talent_mem c i t s p hp with hpe | ⟨p2, hp2mem, hpe1, hpe2⟩
    · rw [hpe]
      refine ⟨hc, hg, by simp, ?_⟩
      intro q hq
      simp at hq
      rw [hq]
      exact ⟨hi, by simp [ht]⟩
    · have hm := hmem p2 hp2mem
      rcases hpe2 with he | he
      · exact ⟨by rw [hpe1]; exact hm.1, by rw [hpe1]; exact hm.2.1,
          by rw [he]; exact hm.2.2.1, by rw [he]; exact hm.2.2.2⟩
      · refine ⟨by rw [hpe1]; exact hm.1, by rw [hpe1]; exact hm.2.1, ?_, ?_⟩
        · rw [he, pushSlot_keys]
          by_cases hmm : i ∈ p2.2.map Prod.fst
          · simpa [hmm] using hm.2.2.1
          · simp [hmm, List.nodup_append, hm.2.2.1]
        · intro q hq
          rw [he] at hq
          rcases pushSlot_mem i t p2.2 q hq with hqe | ⟨p3, hp3, hqe1, hqe2⟩
          · rw [hqe]
            exact ⟨hi, by simp [ht]⟩
          · have hm3 := hm.2.2.2 p3 hp3
            refine ⟨by rw [hqe1]; exact hm3.1, ?_⟩
            intro t2 ht2
            rcases hqe2 with hqe2 | hqe2
            · rw [hqe2] at ht2
              exact hm3.2 t2 ht2
            · rw [hqe2] at ht2
              rcases List.mem_append.mp ht2 with h3 | h3
              · exact hm3.2 t2 h3
              · simp at h3
                rw [h3]
                exact ht

theorem buildStore_StoreInv : ∀ (ops : List AddOp) (acc : StoreMap),
    ops.all goodOp = true → StoreInv acc →
    StoreInv (ops.foldl (fun s op => add_talent op.1 op.2.1 op.2.2 s) acc) := by
  intro ops
  induction ops with
  | nil =>
      intro acc _ h
      simpa using h
  | cons op ops ih =>
      intro acc hall hacc
      simp only [List.all_cons, Bool.and_eq_true] at hall
      have hop := hall.1
      simp only [goodOp, Bool.and_eq_true, decide_eq_true_eq] at hop
      simp only [List.foldl_cons]
      exact ih _ hall.2
        (add_talent_StoreInv op.1 op.2.1 op.2.2 acc hop.1.1.1 hop.1.1.2 hop.1.2 hop.2 hacc)

set_option maxRecDepth 10000 in
/-- Claim C1, counterexample: the round-trip property does not hold for
every store built purely by `add_talent` calls.  A single call whose entry
name contains a double quote builds a store whose encoding is not valid
Lua, so decoding the encoded text fails with a parse error instead of
returning the store's contents. -/
theorem C1_round_trip_counterexample :
    ¬ roundTripOk (buildStore [("Mage", 0, { icon := 0, name := "A\"B", text := "" })]) := by
  have he : parse_lua (to_lua_string (buildStore
      [("Mage", 0, { icon := 0, name := "A\"B", text := "" })])) =
      Except.error "Failed to parse Lua file" := by
    with_unfolding_all rfl
  intro h
  unfold roundTripOk at h
  rw [he] at h
  exact h

/-- Claim C1 (amended): for every sequence of `add_talent` calls whose
class names are emission-safe and distinct from the reserved `OPTION` key,
whose specialization indices fit in a `u8`, and whose entries are
emission-safe with nonnegative in-`i64`-range icons, the store built from
the empty store by those calls round-trips: decoding the text produced by
`to_lua_string` succeeds and yields a store with identical
class-to-spec-index-to-entry contents, including the order of entries
within each slot. -/
theorem C1_round_trip (ops : List AddOp) (h : ops.all goodOp = true) :
    roundTripOk (buildStore ops) :=
  storeInv_roundTrip _ (buildStore_StoreInv ops [] h ⟨by simp, by simp⟩)

/-- Claim C1, witness: a concrete two-class store built by good `add_talent`
calls round-trips. -/
theorem C1_round_trip_witness :
    roundTripOk (buildStore [("Mage", 1, { icon := 5, name := "Arcane", text := "T1" }),
      ("Druid", 2, { icon := 0, name := "Feral_ARCT", text := "" })]) :=
  C1_round_trip _ (by decide)

end TH
